import Mathlib

set_option maxRecDepth 4000

open List (Perm)

open scoped List

/-!
Verification development for the CSV/XLSX → OFX converter (`tool.py`).

The core pipeline (`render_ofx` and its helpers) is shallowly embedded here.
Modelling conventions, stated once:

* A spreadsheet cell is modelled as its textual content (`Cell.str`) or as a
  missing value (`Cell.missing`, pandas `NaN`).  Python's `str()` of a missing
  cell is the literal `"nan"`.
* pandas `Timestamp`s arising from date columns are modelled by their
  `YYYYMMDD` numeral (a `Nat`); comparison of that numeral is monotone in the
  underlying timestamp for the modelled date grammar (date-only strings, which
  parse to midnight), so sorting / min / max agree with pandas.
* `pd.to_datetime` without a format is modelled on the grammar `YYYY-MM-DD`
  (with calendar validity); with a non-blank format the modelled fragment is
  the format string `%Y-%m-%d`.  Inputs outside the modelled fragment parse to
  `missing`, exactly like unparseable inputs in the source.  Dates outside the
  `datetime64[ns]` range (midnight representable for 1677-09-22 … 2262-04-11)
  raise `OutOfBoundsDatetime`, which `errors="coerce"` turns into `NaT`, so
  they also parse to `missing`.
* Lines 58–59 of the source mutate the frame before the loop: line 58 assigns
  the parsed dates to the column `__date` (overwriting any source column of
  that name), so line 59's lookup `df[amount_col]` resolves `"__date"` to the
  parsed dates — `to_numeric` views datetime64 as int64 epoch nanoseconds
  (`NaT` as the int64 minimum, never `NaN`) — while every other name still
  resolves in the source columns (`__amount` is only assigned after line 59's
  right-hand side is evaluated).  Likewise the loop's `row[name_col]` /
  `row[memo_col]` read the mutated frame, in which `__date` and `__amount`
  hold the synthesized values: `str()` of a midnight `Timestamp` is
  `"YYYY-MM-DD 00:00:00"`, `str()` of an int64 entry is the integer numeral,
  and `str()` of a float64 entry is the shortest round-tripping decimal,
  which on the modelled fragment (cell literals that are the shortest
  representation of their double) is the trimmed decimal with at least one
  fractional digit.
* `pd.to_numeric(errors="coerce")` is modelled on the decimal-literal grammar
  (optional sign, digits, optional fractional part).  As in pandas
  (`maybe_convert_numeric`), the column gets integer dtype when every cell is
  an integer-like literal, and float dtype otherwise; float dtype preserves
  the IEEE sign of a parsed `-0`, integer dtype does not.  Values are exact
  rationals; double rounding of values inside the grammar's small range is
  the identity, so this is faithful on the modelled fragment.
* Python's `f"{x:.2f}"` is round-half-even at two decimals, with the sign of
  the float kept (so `-0.0` and tiny negatives format as `"-0.00"`).
* `DataFrame.sort_values` with its default `kind="quicksort"` is modelled by
  a faithful translation of numpy's introsort for argsort
  (`npysort/quicksort.c.src`: `aquicksort`, with `SMALL_QUICKSORT = 15`
  insertion-sort threshold, median-of-three pivoting, and the `aheapsort`
  depth-limit fallback).  Loops are written with ample fuel; the fuel is never
  exhausted on inputs the C code terminates on, and every theorem proved below
  that quantifies over all inputs depends only on properties (length,
  multiset) that hold regardless of fuel.
* `datetime.now()` is an explicit parameter `now`, one value per render call.
-/

/-- Raw spreadsheet cell: textual content, or a missing value (pandas NaN). -/
inductive Cell where
  | str (s : String)
  | missing
deriving DecidableEq, Repr

/-- The space character, written via its code point. -/
def spaceChar : Char := Char.ofNat 32

/-- Horizontal tab. -/
def tabChar : Char := Char.ofNat 9

/-- Characters stripped by Python `str.strip()` (ASCII whitespace). -/
def isPySpace (c : Char) : Bool :=
  c = spaceChar || c = tabChar || c = Char.ofNat 10 || c = Char.ofNat 13 ||
    c = Char.ofNat 11 || c = Char.ofNat 12

/-- Python `str()` of a cell: the text itself, or `"nan"` for a missing value
(`str(float("nan"))`). -/
def pyStr (c : Cell) : String :=
  match c with
  | .str s => s
  | .missing => "nan"

/-- Python `str.strip()`: drop leading and trailing whitespace. -/
def pyStrip (s : String) : String :=
  String.mk (((s.data.dropWhile isPySpace).reverse.dropWhile isPySpace).reverse)

/-- Python `str.replace(" ", "")`: remove every space character. -/
def removeSpaces (s : String) : String :=
  String.mk (s.data.filter (fun c => !(c = spaceChar)))

/-- Removal of every whitespace character (what claim C3 asserts the code
does); compare with `removeSpaces`, which is what the code does. -/
def stripAllWs (s : String) : String :=
  String.mk (s.data.filter (fun c => !(isPySpace c)))

/-- Python slicing `s[:20]` (by code point). -/
def strTake20 (s : String) : String :=
  String.mk (s.data.take 20)

/-- Exact decimal number: the value `num / 10 ^ exp`.  This represents the
parsed numeric cell values exactly (pandas parses the modelled decimal-literal
grammar to doubles; within the grammar's short literals the double is the
stated decimal for formatting purposes, see the module comment). -/
structure Dec where
  num : Int
  exp : Nat
deriving DecidableEq, Repr

/-- Negation of a decimal value. -/
def Dec.neg (d : Dec) : Dec := ⟨-d.num, d.exp⟩

/-- Whether the value is zero. -/
def Dec.isZero (d : Dec) : Bool := d.num = 0

/-- Decimal numeric literal as parsed by pandas' numeric coercion:
exact value, whether it is integer-like (no decimal point, so eligible for
int64 dtype), and whether the literal carried a minus sign (IEEE sign of a
parsed `-0.0`). -/
structure NumLit where
  q : Dec
  intLike : Bool
  negSign : Bool
deriving DecidableEq, Repr

/-- Value of a digit string. -/
def digitsVal (l : List Char) : Nat :=
  l.foldl (fun acc c => 10 * acc + (c.toNat - 48)) 0

/-- Parse a decimal literal `[sign] digits [ "." digits ]` / `[sign] "." digits`
(the modelled fragment of pandas `to_numeric`'s accepted strings).  Anything
else coerces to NaN, i.e. `none`. -/
def parseNumLit (s : String) : Option NumLit :=
  let chars := s.data
  let neg := chars.headD '0' = '-'
  let rest := if chars.headD '0' = '-' || chars.headD '0' = '+' then chars.drop 1 else chars
  let intDigits := rest.takeWhile Char.isDigit
  let tail := rest.dropWhile Char.isDigit
  match tail with
  | [] =>
      if intDigits.isEmpty then none
      else
        let v : Int := (digitsVal intDigits : Nat)
        some ⟨⟨if neg then -v else v, 0⟩, true, neg⟩
  | c :: frac =>
      if c = '.' && frac.all Char.isDigit && !(intDigits.isEmpty && frac.isEmpty) then
        let v : Int := (digitsVal intDigits * 10 ^ frac.length + digitsVal frac : Nat)
        some ⟨⟨if neg then -v else v, frac.length⟩, false, neg⟩
      else none

/-- A normalized amount: the exact value together with the IEEE sign bit in
the zero case (float `-0.0` versus `0.0`; always `false` under int64 dtype). -/
structure FV where
  q : Dec
  negZero : Bool
deriving DecidableEq, Repr

/-- Round `t / d` (with `d > 0`) to the nearest integer, ties to even
(IEEE / Python formatting). -/
def roundHalfEvenDiv (t : Int) (d : Int) : Int :=
  let q := Int.fdiv t d
  let r := t - q * d
  if 2 * r < d then q
  else if d < 2 * r then q + 1
  else if q % 2 = 0 then q else q + 1

/-- The value rounded to cents (hundredths), ties to even. -/
def Dec.cents (x : Dec) : Int :=
  roundHalfEvenDiv (x.num * 100) (10 ^ x.exp)

/-- Two right-aligned decimal digits of `n % 100`. -/
def pad2 (n : Nat) : String :=
  String.mk [Nat.digitChar (n / 10 % 10), Nat.digitChar (n % 10)]

/-- Python `f"{x:.2f}"`: two fractional digits, half-even, keeping the sign of
the value (negative zero included; a negative value rounding to zero keeps
its minus sign, as Python does). -/
def fmtAmt (v : FV) : String :=
  let n : Nat := v.q.cents.natAbs
  let sign : String := if v.q.num < 0 || v.negZero then "-" else ""
  sign ++ toString (n / 100) ++ "." ++ pad2 (n % 100)

/-- The string ends in a dot followed by exactly two digits (i.e. it renders
with exactly two fractional digits). -/
def hasTwoFracDigits (s : String) : Prop :=
  ∃ pre d1 d2, s.data = pre ++ ['.', d1, d2] ∧ d1.isDigit ∧ d2.isDigit

/-- Left-pad a numeral with zeros to 8 characters: `%Y%m%d` of the date key
(4-digit year, 2-digit month and day, each zero-padded). -/
def fmt8 (key : Nat) : String :=
  let s := toString key
  String.mk (List.replicate (8 - s.length) '0') ++ s

/-- The processing timestamp (`datetime.now()`): date key plus time of day. -/
structure Now where
  d : Nat
  hh : Nat
  mm : Nat
  ss : Nat
deriving DecidableEq, Repr

/-- Format `%Y%m%d%H%M%S` of the processing timestamp. -/
def fmt14 (t : Now) : String :=
  fmt8 t.d ++ pad2 t.hh ++ pad2 t.mm ++ pad2 t.ss

/-- Lines 40–44 of `tool.py` (`generate_fitid`): date `%Y%m%d`, amount `.2f`
and the row's index joined by `"-"`; a non-empty memo appends its first 20
characters after stripping; finally `.replace(" ", "")`. -/
def generate_fitid (row_index : Nat) (when : Nat) (amount : FV) (memo : String) : String :=
  let digest := fmt8 when ++ "-" ++ fmtAmt amount ++ "-" ++ toString row_index
  let digest := if memo ≠ "" then digest ++ "-" ++ strTake20 (pyStrip memo) else digest
  removeSpaces digest

/-- The delimited segments named by the specification of the identifier. -/
def fitidSegments (row_index : Nat) (when : Nat) (amount : FV) (memo : String) : List String :=
  [fmt8 when, fmtAmt amount, toString row_index] ++
    (if memo ≠ "" then [strTake20 (pyStrip memo)] else [])

/-- Segments joined by the fixed delimiter. -/
def joinDash : List String → String
  | [] => ""
  | [x] => x
  | x :: xs => x ++ "-" ++ joinDash xs

/-- Claim C3 as stated: segments joined by the delimiter, then all interior
whitespace characters stripped. -/
def fitidSpecStated (row_index : Nat) (when : Nat) (amount : FV) (memo : String) : String :=
  stripAllWs (joinDash (fitidSegments row_index when amount memo))

/-- Claim C3 amended: segments joined by the delimiter, then all space
characters (only) stripped. -/
def fitidSpecSpaces (row_index : Nat) (when : Nat) (amount : FV) (memo : String) : String :=
  removeSpaces (joinDash (fitidSegments row_index when amount memo))

/-- Leap year (Gregorian). -/
def isLeap (y : Nat) : Bool :=
  (y % 4 = 0 && y % 100 ≠ 0) || y % 400 = 0

/-- Days in a month. -/
def daysInMonth (y m : Nat) : Nat :=
  if m = 2 then (if isLeap y then 29 else 28)
  else if m = 4 || m = 6 || m = 9 || m = 11 then 30
  else 31

/-- Parse a date string of the modelled grammar `YYYY-MM-DD` (digits and
dashes exactly in those positions, calendar-valid, inside the `datetime64[ns]`
range, whose midnights span 1677-09-22 … 2262-04-11) into its `YYYYMMDD` key;
anything else — including an out-of-bounds date, which `errors="coerce"`
turns into `NaT` — coerces to `none`. -/
def parseDateStr (s : String) : Option Nat :=
  match s.data with
  | [y1, y2, y3, y4, c1, m1, m2, c2, d1, d2] =>
      if c1 = '-' && c2 = '-' && [y1, y2, y3, y4, m1, m2, d1, d2].all Char.isDigit then
        let y := digitsVal [y1, y2, y3, y4]
        let m := digitsVal [m1, m2]
        let d := digitsVal [d1, d2]
        if 1 ≤ m && m ≤ 12 && 1 ≤ d && d ≤ daysInMonth y m then
          let key := y * 10000 + m * 100 + d
          if 16770922 ≤ key && key ≤ 22620411 then some key else none
        else none
      else none
  | _ => none

/-- Lines 34–37 of `tool.py` (`parse_date`), per cell: with a non-blank format
string, strict parsing against that format (modelled fragment: the format
`%Y-%m-%d`); otherwise best-effort parsing (modelled fragment: `YYYY-MM-DD`).
Missing cells and unparseable text coerce to `none`. -/
def parse_date (date_format : String) (c : Cell) : Option Nat :=
  match c with
  | .missing => none
  | .str s =>
      if pyStrip date_format ≠ "" then
        if pyStrip date_format = "%Y-%m-%d" then parseDateStr s else none
      else parseDateStr s

example : generate_fitid 3 20240105 ⟨⟨-505, 1⟩, false⟩ " memo here " =
    "20240105--50.50-3-memohere" := by decide

example : fmtAmt ⟨⟨125, 1⟩, false⟩ = "12.50" := by decide

example : fmtAmt ⟨⟨0, 0⟩, true⟩ = "-0.00" := by decide

example : fmtAmt ⟨⟨-1, 3⟩, false⟩ = "-0.00" := by decide

example : fmtAmt ⟨⟨125, 3⟩, false⟩ = "0.12" := by decide

example : parseNumLit "-0" = some ⟨⟨0, 0⟩, true, true⟩ := by decide

example : parseNumLit "12.5" = some ⟨⟨125, 1⟩, false, false⟩ := by decide

example : parseNumLit "N/A" = none := by decide

example : parseDateStr "2024-01-05" = some 20240105 := by decide

example : parseDateStr "2024-02-30" = none := by decide

example : parseDateStr "2024-13-05" = none := by decide

/-- Account metadata (`OfxMeta` dataclass in `tool.py`). -/
structure OfxMeta where
  bank_id : String
  account_id : String
  account_type : String
  currency : String
  org : String
  fid : String
deriving DecidableEq, Repr

/-- A tabular source: fixed column names and rows of cells (row `i`'s cell for
column `j` is `table[i][j]`).  The synthetic `__date` / `__amount` columns
that lines 58–59 assign over this frame are carried as the `date` / `amount`
fields of `Surv` below, and lookups against the mutated frame's column set are
modelled explicitly (`amountsOf`, `rowStr`, `colCheck`). -/
structure DataFrame where
  cols : List String
  table : List (List Cell)
deriving DecidableEq, Repr

/-- Cell of a row under a column name (missing column name gives `none`,
pandas `KeyError`; a short row reads as missing cells). -/
def cellOf (cols : List String) (row : List Cell) (c : String) : Option Cell :=
  (cols.findIdx? (fun x => x = c)).map (fun j => row.getD j Cell.missing)

/-- Cell of a row under a column name, defaulting to missing. -/
def cellD (cols : List String) (row : List Cell) (c : String) : Cell :=
  (cellOf cols row c).getD Cell.missing

/-- Column extraction `df[c]` (pandas `KeyError` when the name is absent). -/
def getCol (df : DataFrame) (c : String) : Option (List Cell) :=
  (df.cols.findIdx? (fun x => x = c)).map
    (fun j => df.table.map (fun row => row.getD j Cell.missing))

/-- Per-cell numeric parse: a missing cell is NaN. -/
def parseCellNum (c : Cell) : Option NumLit :=
  match c with
  | .missing => none
  | .str s => parseNumLit s

/-- Whether `pd.to_numeric` gives the column int64 dtype: every cell parses
and every literal is integer-like (pandas `maybe_convert_numeric`). -/
def intDtype (cells : List Cell) : Bool :=
  (cells.map parseCellNum).all (fun o => o.isSome) &&
    (cells.map parseCellNum).all (fun o => (o.map (·.intLike)).getD true)

/-- Line 28 of `tool.py`: `pd.to_numeric(series, errors="coerce")`.  Int64
dtype has no negative zero; float dtype keeps the IEEE sign of `-0`. -/
def to_numeric (cells : List Cell) : List (Option FV) :=
  if intDtype cells then
    (cells.map parseCellNum).map (Option.map (fun n => ⟨n.q, false⟩))
  else
    (cells.map parseCellNum).map (Option.map (fun n => ⟨n.q, n.negSign && n.q.isZero⟩))

/-- Lines 27–31 of `tool.py` (`normalize_amount`): numeric coercion, then
`values * -1` when inverting.  Negating an int64 zero stays `0`; negating a
float `±0.0` flips the IEEE sign. -/
def normalize_amount (cells : List Cell) (invert : Bool) : List (Option FV) :=
  let values := to_numeric cells
  if invert then
    if intDtype cells then
      values.map (Option.map (fun v => ⟨v.q.neg, false⟩))
    else
      values.map (Option.map (fun v => ⟨v.q.neg, v.q.isZero && !v.negZero⟩))
  else values

/-- A row surviving `dropna` on the parsed date and amount columns: original
position (the pandas index label carried through `dropna` / `sort_values`),
parsed date, normalized amount, and the row's original cells. -/
structure Surv where
  idx : Nat
  date : Nat
  amount : FV
  cells : List Cell
deriving DecidableEq, Repr

/-- Lines 57–61 of `tool.py`: attach the parsed `__date` / `__amount` columns
and drop rows where either is missing, keeping original index labels. -/
def survAux (i : Nat) : List (List Cell) → List (Option Nat) → List (Option FV) → List Surv
  | [], _, _ => []
  | _ :: _, [], _ => []
  | _ :: _, _ :: _, [] => []
  | r :: rs, d :: ds, a :: as =>
      match d, a with
      | some dv, some av => ⟨i, dv, av, r⟩ :: survAux (i + 1) rs ds as
      | _, _ => survAux (i + 1) rs ds as

/-- Days from 1970-01-01 of a Gregorian calendar date (the civil-calendar
formula; all intermediate quantities are non-negative on the dates the parser
admits, so truncating division agrees with flooring). -/
def daysFromCivil (y m d : Nat) : Int :=
  let y2 : Int := (y : Int) - (if m ≤ 2 then 1 else 0)
  let era : Int := y2 / 400
  let yoe : Int := y2 - era * 400
  let mp : Int := ((m : Int) + 9) % 12
  let doy : Int := (153 * mp + 2) / 5 + (d : Int) - 1
  let doe : Int := yoe * 365 + yoe / 4 - yoe / 100 + doy
  era * 146097 + doe - 719468

/-- Epoch nanoseconds of the midnight timestamp with the given `YYYYMMDD` key:
the int64 value `to_numeric` reads off a datetime64 entry.  Within the
`datetime64[ns]` bounds enforced by the date parser this fits int64. -/
def epochNs (key : Nat) : Int :=
  daysFromCivil (key / 10000) (key / 100 % 100) (key % 100) * 86400000000000

/-- Two's-complement int64 wrap-around. -/
def wrap64 (x : Int) : Int := (x + 2 ^ 63) % 2 ^ 64 - 2 ^ 63

/-- `pd.to_numeric` of one datetime64 entry, then the optional `* -1`:
the timestamp's epoch nanoseconds (`NaT` is viewed as the int64 minimum, so a
date that failed to parse still yields a number, never `NaN`); int64
negation wraps. -/
def dateAmt (invert : Bool) (o : Option Nat) : FV :=
  let v : Int := match o with
    | some k => epochNs k
    | none => -(2 ^ 63)
  ⟨⟨if invert then wrap64 (-v) else v, 0⟩, false⟩

/-- Line 59's lookup `df[amount_col]` and normalization, on the frame that
line 58 has already mutated: the name `__date` resolves to the freshly
assigned parsed dates (datetime64 viewed as int64 epoch nanoseconds, int64
dtype), and any other name still resolves in the source columns (`__amount`
does not yet exist when the right-hand side of line 59 is evaluated).
Returns the normalized amount entries and the column's dtype
(`true` = int64). -/
def amountsOf (df : DataFrame) (amount_col : String) (gd : List (Option Nat))
    (invert : Bool) : Option (List (Option FV) × Bool) :=
  if amount_col = "__date" then
    some (gd.map (fun o => some (dateAmt invert o)), true)
  else
    (getCol df amount_col).map (fun acol => (normalize_amount acol invert, intDtype acol))

/-!
Line 62 of `tool.py`, `df.sort_values("__date")`, reaches numpy's indirect
introsort (`aquicksort` in `npysort/quicksort.c.src`, the default
`kind="quicksort"`): insertion sort on ranges of at most `SMALL_QUICKSORT + 1
= 16` positions, otherwise median-of-three quicksort partitioning with the
larger side pushed on an explicit stack, falling back to `aheapsort` when the
depth budget `2 * msb(n)` is exhausted.  The functions below translate that C
code over a functional index list `tosort`; `keys` is the sort-key column,
looked up through the index being moved, exactly like `v[*pi]` in C.  Out of
range reads return 0 and out of range writes are dropped; the C code never
makes them on reachable states, and the guarded `lswap` equals the C swap on
every sane call.
-/

/-- Read with default 0 (a C pointer read; in range on all reachable states). -/
def lget (l : List Nat) (i : Nat) : Nat := l.getD i 0

/-- Exchange two positions (C `INTP_SWAP`), guarded to be a no-op when out of
range so that it is unconditionally a permutation. -/
def lswap (l : List Nat) (i j : Nat) : List Nat :=
  if i < l.length ∧ j < l.length then (l.set i (lget l j)).set j (lget l i) else l

/-- Key of the element whose index sits at position `i` of `tosort`
(C `v[tosort[i]]`). -/
def kAt (keys t : List Nat) (i : Nat) : Nat := lget keys (lget t i)

/-- The segment `tosort[pl..pr]`. -/
def readSeg (t : List Nat) (pl pr : Nat) : List Nat :=
  (t.drop pl).take (pr + 1 - pl)

/-- Write a segment back over `tosort[pl..pr]`. -/
def writeSeg (t : List Nat) (pl pr : Nat) (seg : List Nat) : List Nat :=
  t.take pl ++ seg ++ t.drop (pl + (pr + 1 - pl))

/-- One step of the C insertion sort: the element `vi` is placed before the
maximal run of already-placed elements with strictly greater key (scanning
from the right, shifting while `LT(vp, v[*pk])`), i.e. after every element
whose key is at most its own. -/
def insertShift (keys : List Nat) (acc : List Nat) (vi : Nat) : List Nat :=
  (acc.reverse.dropWhile (fun a => lget keys vi < lget keys a)).reverse ++
    vi :: (acc.reverse.takeWhile (fun a => lget keys vi < lget keys a)).reverse

/-- The C insertion sort of a segment, as the left fold of single insertions
(`for (pi = pl + 1; pi <= pr; ++pi)` over an initial one-element run). -/
def insSort (keys : List Nat) (seg : List Nat) : List Nat :=
  seg.foldl (insertShift keys) []

/-- Scan `do ++pi; while (LT(v[*pi], vp))`. -/
def scanUp (keys : List Nat) (vp : Nat) (t : List Nat) : Nat → Nat → Nat
  | i, 0 => i + 1
  | i, fuel + 1 =>
      let i1 := i + 1
      if kAt keys t i1 < vp then scanUp keys vp t i1 fuel else i1

/-- Scan `do --pj; while (LT(vp, v[*pj]))`. -/
def scanDown (keys : List Nat) (vp : Nat) (t : List Nat) : Nat → Nat → Nat
  | j, 0 => j - 1
  | j, fuel + 1 =>
      let j1 := j - 1
      if vp < kAt keys t j1 then scanDown keys vp t j1 fuel else j1

/-- The C partition exchange loop, returning the array and the pivot
position `pi`. -/
def partLoop (keys : List Nat) (vp : Nat) : Nat → List Nat → Nat → Nat → List Nat × Nat
  | 0, t, pi, _ => (t, pi + 1)
  | fuel + 1, t, pi, pj =>
      let pi1 := scanUp keys vp t pi (t.length + 2)
      let pj1 := scanDown keys vp t pj (t.length + 2)
      if pi1 ≥ pj1 then (t, pi1)
      else partLoop keys vp fuel (lswap t pi1 pj1) pi1 pj1

/-- Median-of-three pivot selection, pivot swap and partition of
`tosort[pl..pr]` (the body of the C `while` when the range is large). -/
def partitionStep (keys : List Nat) (t : List Nat) (pl pr : Nat) : List Nat × Nat :=
  let pm := pl + (pr - pl) / 2
  let t1 := if kAt keys t pm < kAt keys t pl then lswap t pm pl else t
  let t2 := if kAt keys t1 pr < kAt keys t1 pm then lswap t1 pr pm else t1
  let t3 := if kAt keys t2 pm < kAt keys t2 pl then lswap t2 pm pl else t2
  let vp := kAt keys t3 pm
  let t4 := lswap t3 pm (pr - 1)
  let pr2 := partLoop keys vp (t4.length + 2) t4 pl (pr - 1)
  (lswap pr2.1 pr2.2 (pr - 1), pr2.2)

/-- The C `aheapsort` sift: one-based heap positions over a list segment;
`tmp` is the index being sifted, `i` the hole, `j` the candidate child.
Returns the list and the final hole. -/
def sift (keys : List Nat) (n : Nat) : Nat → List Nat → Nat → Nat → Nat → List Nat × Nat
  | 0, l, _, i, _ => (l, i)
  | fuel + 1, l, tmp, i, j =>
      if j ≤ n then
        let j2 := if j < n && lget keys (lget l (j - 1)) < lget keys (lget l j) then j + 1 else j
        if lget keys tmp < lget keys (lget l (j2 - 1)) then
          sift keys n fuel (l.set (i - 1) (lget l (j2 - 1))) tmp j2 (j2 + j2)
        else (l, i)
      else (l, i)

/-- Heapify phase of `aheapsort` (`for (l = n >> 1; l > 0; --l)`). -/
def heapify (keys : List Nat) (n : Nat) : Nat → List Nat → List Nat
  | 0, l => l
  | li + 1, l =>
      let tmp := lget l (li + 1 - 1)
      let p := sift keys n (n + 2) l tmp (li + 1) (2 * (li + 1))
      heapify keys n li (p.1.set (p.2 - 1) tmp)

/-- Extraction phase of `aheapsort` (`for (; n > 1;)`). -/
def heapExtract (keys : List Nat) : Nat → List Nat → List Nat
  | 0, l => l
  | 1, l => l
  | m + 2, l =>
      let tmp := lget l (m + 2 - 1)
      let l1 := l.set (m + 2 - 1) (lget l 0)
      let p := sift keys (m + 1) (m + 3) l1 tmp 1 2
      heapExtract keys (m + 1) (p.1.set (p.2 - 1) tmp)

/-- The C `aheapsort` over a whole list. -/
def heapsortList (keys : List Nat) (l : List Nat) : List Nat :=
  heapExtract keys l.length (heapify keys l.length (l.length / 2) l)

/-- `aheapsort` applied to the segment `tosort[pl..pr]` (the depth-limit
fallback call `aheapsort(vv, pl, pr - pl + 1, NULL)`). -/
def heapsortSeg (keys : List Nat) (t : List Nat) (pl pr : Nat) : List Nat :=
  writeSeg t pl pr (heapsortList keys (readSeg t pl pr))

/-- The main loop of `aquicksort`: the outer `for (;;)` with its explicit
stack, depth budget, small-range insertion sort and stack popping. -/
def qsLoop (keys : List Nat) : Nat → List Nat → Int → Nat → Nat → List (Nat × Nat) → List Nat
  | 0, t, _, _, _, _ => t
  | fuel + 1, t, depth, pl, pr, stack =>
      if (pr : Int) - (pl : Int) > 15 then
        if depth < 0 then
          let t2 := heapsortSeg keys t pl pr
          match stack with
          | [] => t2
          | (a, b) :: rest => qsLoop keys fuel t2 (depth - 1) a b rest
        else
          let ps := partitionStep keys t pl pr
          let pi := ps.2
          if pi - pl < pr - pi then
            qsLoop keys fuel ps.1 (depth - 1) pl (pi - 1) ((pi + 1, pr) :: stack)
          else
            qsLoop keys fuel ps.1 (depth - 1) (pi + 1) pr ((pl, pi - 1) :: stack)
      else
        let t2 := writeSeg t pl pr (insSort keys (readSeg t pl pr))
        match stack with
        | [] => t2
        | (a, b) :: rest => qsLoop keys fuel t2 depth a b rest

/-- numpy `argsort(kind="quicksort")` of a key column: the permutation of
positions produced by `aquicksort` started on the identity index array.
This is what `df.sort_values("__date")` applies to the surviving rows
(`pandas.core.sorting.nargsort`; the column has no NaT left after `dropna`). -/
def npArgsort (keys : List Nat) : List Nat :=
  let n := keys.length
  if n = 0 then []
  else qsLoop keys (4 * n + 16) (List.range n) (2 * Nat.log2 n) 0 (n - 1) []

/-- A dummy surviving row (never selected: argsort indices are in range). -/
def dummySurv : Surv := ⟨0, 0, ⟨⟨0, 0⟩, false⟩, []⟩

/-- Reorder the surviving rows by a position list. -/
def reorder (surv : List Surv) (is : List Nat) : List Surv :=
  is.map (fun i => surv.getD i dummySurv)

/-- Line 62 of `tool.py`: the surviving rows in the order produced by
`sort_values` on the parsed date column. -/
def sortValues (surv : List Surv) : List Surv :=
  reorder surv (npArgsort (surv.map (·.date)))

example : npArgsort [5, 3, 4] = [1, 2, 0] := by decide

example : npArgsort (List.replicate 16 7) = List.range 16 := by decide

example : npArgsort (List.replicate 17 7) =
    [0, 14, 13, 12, 11, 10, 9, 15, 8, 6, 5, 4, 3, 2, 1, 7, 16] := by decide

/-- A rendered transaction: everything the `<STMTTRN>` block interpolates,
plus the row's original position and cells. -/
structure Trn where
  idx : Nat
  date : Nat
  amount : FV
  name : String
  memo : String
  fitid : String
  cells : List Cell
deriving DecidableEq, Repr

/-- Python `str()` of a midnight `Timestamp` (`"YYYY-MM-DD 00:00:00"`). -/
def strTimestamp (key : Nat) : String :=
  let s := fmt8 key
  String.mk (s.data.take 4) ++ "-" ++ String.mk ((s.data.drop 4).take 2) ++ "-" ++
    String.mk (s.data.drop 6) ++ " 00:00:00"

/-- Trailing fractional zeros removed from an exact decimal `n / 10 ^ e`. -/
def decTrim (n : Int) : Nat → Int × Nat
  | 0 => (n, 0)
  | e + 1 => if n % 10 = 0 then decTrim (n / 10) e else (n, e + 1)

/-- Zero-pad a numeral string on the left to the given width. -/
def padZeros (w : Nat) (s : String) : String :=
  String.mk (List.replicate (w - s.length) '0') ++ s

/-- Python `str()` of a float64 value: the shortest round-tripping decimal,
which on the modelled fragment (module comment) is the value's trimmed
decimal with at least one fractional digit, `-0.0` keeping its sign. -/
def floatRepr (v : FV) : String :=
  let t := decTrim v.q.num v.q.exp
  let n := t.1.natAbs
  let e := t.2
  let sign := if v.q.num < 0 || v.negZero then "-" else ""
  if e = 0 then sign ++ toString n ++ ".0"
  else sign ++ toString (n / 10 ^ e) ++ "." ++ padZeros e (toString (n % 10 ^ e))

/-- Python `str()` of a row's `__amount` entry: an int64 column prints the
integer, a float64 column prints via `floatRepr`. -/
def strNum (v : FV) (intdt : Bool) : String :=
  if intdt then (if v.q.num < 0 then "-" else "") ++ toString v.q.num.natAbs
  else floatRepr v

/-- `str(row[c])` inside the loop: the frame was mutated at lines 58–59, so
the synthesized columns shadow any source column of the same name; every
other name reads the row's original cell. -/
def rowStr (cols : List String) (intdt : Bool) (s : Surv) (c : String) : String :=
  if c = "__date" then strTimestamp s.date
  else if c = "__amount" then strNum s.amount intdt
  else pyStr (cellD cols s.cells c)

/-- Lines 113–117 of `tool.py`, for one row, when the optional column lookups
succeed: memo and name extraction against the mutated frame (name defaults to
the memo when no name column is mapped) and identifier generation.  `intdt`
is the dtype of the synthesized `__amount` column. -/
def mkTrn (cols : List String) (intdt : Bool) (name_col memo_col : Option String)
    (s : Surv) : Trn :=
  let memo := match memo_col with
    | some c => pyStrip (rowStr cols intdt s c)
    | none => ""
  let name := match name_col with
    | some c => pyStrip (rowStr cols intdt s c)
    | none => memo
  ⟨s.idx, s.date, s.amount, name, memo, generate_fitid s.idx s.date s.amount memo, s.cells⟩

/-- The `KeyError` raised by `row[c]` when an optional mapped column is
absent from the mutated frame — which always holds `__date` and `__amount`
next to the source columns (`none` when the lookup would succeed or no column
is mapped).  It is raised inside the loop, so an empty survivor set never
reaches it (see `buildTrns`). -/
def colCheck (cols : List String) (oc : Option String) : Option String :=
  match oc with
  | none => none
  | some c =>
      if c = "__date" || c = "__amount" || (cols.findIdx? (fun x => x = c)).isSome then none
      else some ("KeyError: " ++ c)

/-- The `for idx, row in df.iterrows()` loop body, with the pandas `KeyError`
on a mapped-but-absent name or memo column surfaced as an error (raised at
the first iteration, before any text is returned; an empty survivor list
never runs the body, so no error is raised then). -/
def buildTrns (cols : List String) (intdt : Bool) (name_col memo_col : Option String) :
    List Surv → Except String (List Trn)
  | [] => .ok []
  | s :: rest =>
      match colCheck cols memo_col with
      | some e => .error e
      | none =>
          match colCheck cols name_col with
          | some e => .error e
          | none =>
              match buildTrns cols intdt name_col memo_col rest with
              | .error e => .error e
              | .ok ts => .ok (mkTrn cols intdt name_col memo_col s :: ts)

/-- The ordered transaction list of a conversion: parse, drop, sort, build
(`render_ofx` up to line 62 plus the loop's field extraction).  Line 58's
`df[date_col]` read happens on the original frame; line 59's `df[amount_col]`
read happens after the `__date` assignment (`amountsOf`). -/
def transactions (df : DataFrame) (date_col amount_col : String)
    (name_col memo_col : Option String) (invert : Bool) (date_format : String) :
    Except String (List Trn) :=
  match getCol df date_col with
  | none => .error ("KeyError: " ++ date_col)
  | some dcol =>
      match amountsOf df amount_col (dcol.map (parse_date date_format)) invert with
      | none => .error ("KeyError: " ++ amount_col)
      | some p =>
          buildTrns df.cols p.2 name_col memo_col
            (sortValues (survAux 0 df.table (dcol.map (parse_date date_format)) p.1))

/-- The rendered `<NAME>` value (`name or 'Transaction'`). -/
def nameRendered (t : Trn) : String :=
  if t.name = "" then "Transaction" else t.name

/-- The rendered `<TRNTYPE>` value (`"CREDIT" if amount >= 0 else "DEBIT"`;
float `-0.0 >= 0` is true, so only the numeric value matters). -/
def trnType (t : Trn) : String :=
  if 0 ≤ t.amount.q.num then "CREDIT" else "DEBIT"

/-- The exact opening line of a transaction block. -/
def stmtOpen : String := "          <STMTTRN>"

/-- Lines 119–130 of `tool.py`: one `<STMTTRN>` block. -/
def trnLines (t : Trn) : List String :=
  [stmtOpen,
   "            <TRNTYPE>" ++ trnType t,
   "            <DTPOSTED>" ++ fmt8 t.date,
   "            <TRNAMT>" ++ fmtAmt t.amount,
   "            <FITID>" ++ t.fitid,
   "            <NAME>" ++ nameRendered t,
   "            <MEMO>" ++ t.memo,
   "          </STMTTRN>"]

/-- `DTSTART`: minimum of the (sorted) date column, or `now` if empty. -/
def dtStart (ts : List Trn) (now : Now) : Nat :=
  ((ts.map (·.date)).min?).getD now.d

/-- `DTEND`: maximum of the (sorted) date column, or `now` if empty. -/
def dtEnd (ts : List Trn) (now : Now) : Nat :=
  ((ts.map (·.date)).max?).getD now.d

/-- Lines 67–110 of `tool.py`: the fixed header and statement preamble, with
the metadata, server timestamp and date range interpolated. -/
def headerLines (meta : OfxMeta) (now : Now) (startD endD : Nat) : List String :=
  ["OFXHEADER:100",
   "DATA:OFXSGML",
   "VERSION:102",
   "SECURITY:NONE",
   "ENCODING:USASCII",
   "CHARSET:1252",
   "COMPRESSION:NONE",
   "OLDFILEUID:NONE",
   "NEWFILEUID:NONE",
   "",
   "<OFX>",
   "  <SIGNONMSGSRSV1>",
   "    <SONRS>",
   "      <STATUS>",
   "        <CODE>0",
   "        <SEVERITY>INFO",
   "      </STATUS>",
   "      <DTSERVER>" ++ fmt14 now,
   "      <LANGUAGE>ENG",
   "      <FI>",
   "        <ORG>" ++ meta.org,
   "        <FID>" ++ meta.fid,
   "      </FI>",
   "    </SONRS>",
   "  </SIGNONMSGSRSV1>",
   "  <BANKMSGSRSV1>",
   "    <STMTTRNRS>",
   "      <TRNUID>1",
   "      <STATUS>",
   "        <CODE>0",
   "        <SEVERITY>INFO",
   "      </STATUS>",
   "      <STMTRS>",
   "        <CURDEF>" ++ meta.currency,
   "        <BANKACCTFROM>",
   "          <BANKID>" ++ meta.bank_id,
   "          <ACCTID>" ++ meta.account_id,
   "          <ACCTTYPE>" ++ meta.account_type,
   "        </BANKACCTFROM>",
   "        <BANKTRANLIST>",
   "          <DTSTART>" ++ fmt8 startD,
   "          <DTEND>" ++ fmt8 endD]

/-- Lines 132–144 of `tool.py`: the closing lines. -/
def footerLines (endD : Nat) : List String :=
  ["        </BANKTRANLIST>",
   "        <LEDGERBAL>",
   "          <BALAMT>0.00",
   "          <DTASOF>" ++ fmt8 endD,
   "        </LEDGERBAL>",
   "      </STMTRS>",
   "    </STMTTRNRS>",
   "  </BANKMSGSRSV1>",
   "</OFX>"]

/-- The rendered document, as its list of lines. -/
def renderLines (df : DataFrame) (meta : OfxMeta) (date_col amount_col : String)
    (name_col memo_col : Option String) (invert : Bool) (date_format : String)
    (now : Now) : Except String (List String) := do
  let ts ← transactions df date_col amount_col name_col memo_col invert date_format
  .ok (headerLines meta now (dtStart ts now) (dtEnd ts now) ++
    (ts.map trnLines).flatten ++ footerLines (dtEnd ts now))

/-- Lines 47–146 of `tool.py` (`render_ofx`): the document text, i.e. the
lines joined by newlines ("\n".join), or the propagated `KeyError`. -/
def render_ofx (df : DataFrame) (meta : OfxMeta) (date_col amount_col : String)
    (name_col memo_col : Option String) (invert : Bool) (date_format : String)
    (now : Now) : Except String String :=
  (renderLines df meta date_col amount_col name_col memo_col invert date_format now).map
    (String.intercalate "\n")

/-! Permutation facts for the sorting machinery. -/

theorem getD_eq_getElem_of_lt {l : List α} {i : Nat} (h : i < l.length) (d : α) :
    l.getD i d = l[i] := by
  simp [List.getD_eq_getElem?_getD, List.getElem?_eq_getElem h]

theorem set_getD_self {l : List α} {i : Nat} (d : α) : l.set i (l.getD i d) = l := by
  by_cases h : i < l.length
  · apply List.ext_getElem?
    intro n
    rw [List.getElem?_set]
    by_cases hn : i = n
    · subst hn
      simp [h, getD_eq_getElem_of_lt h, List.getElem?_eq_getElem h]
    · simp [hn]
  · exact List.set_eq_of_length_le (Nat.le_of_not_lt h)

theorem double_set_perm {l : List α} [DecidableEq α] {i j : Nat} (hi : i < l.length)
    (hj : j < l.length) (d : α) :
    (l.set i (l.getD j d)).set j (l.getD i d) ~ l := by
  by_cases hij : i = j
  · subst hij
    rw [List.set_set, set_getD_self]
  · rw [List.perm_iff_count]
    intro a
    have hj1 : j < (l.set i (l.getD j d)).length := by simpa using hj
    rw [List.count_set _ _ _ _ hj1, List.count_set _ _ _ _ hi]
    rw [List.getElem_set_ne (fun h => hij h) hj1]
    simp only [getD_eq_getElem_of_lt hi, getD_eq_getElem_of_lt hj, beq_iff_eq]
    have h1 : (if l[i] = a then 1 else 0) ≤ l.count a := by
      by_cases h : l[i] = a
      · subst h
        simp [List.one_le_count_iff.2 (l.getElem_mem hi)]
      · simp [h]
    by_cases e1 : l[i] = a <;> by_cases e2 : l[j] = a <;>
      simp only [e1, e2, if_true, if_false] at h1 ⊢ <;> omega

theorem lswap_perm (l : List Nat) (i j : Nat) : lswap l i j ~ l := by
  unfold lswap
  by_cases h : i < l.length ∧ j < l.length
  · simp only [h, if_pos]
    exact double_set_perm h.1 h.2 0
  · simp [h]

theorem lswap_length (l : List Nat) (i j : Nat) : (lswap l i j).length = l.length :=
  (lswap_perm l i j).length_eq

theorem readSeg_writeSeg (t : List Nat) (pl pr : Nat) :
    t.take pl ++ readSeg t pl pr ++ t.drop (pl + (pr + 1 - pl)) = t := by
  unfold readSeg
  have h : (t.drop pl).take (pr + 1 - pl) ++ t.drop (pl + (pr + 1 - pl)) = t.drop pl := by
    rw [← List.drop_drop]
    exact List.take_append_drop _ _
  rw [List.append_assoc, h, List.take_append_drop]

theorem writeSeg_perm {t : List Nat} {pl pr : Nat} {seg : List Nat}
    (h : seg ~ readSeg t pl pr) : writeSeg t pl pr seg ~ t := by
  unfold writeSeg
  calc t.take pl ++ seg ++ t.drop (pl + (pr + 1 - pl))
      ~ t.take pl ++ readSeg t pl pr ++ t.drop (pl + (pr + 1 - pl)) :=
        ((h.append_left _).append_right _)
    _ = t := readSeg_writeSeg t pl pr

theorem insertShift_perm (keys : List Nat) (acc : List Nat) (vi : Nat) :
    insertShift keys acc vi ~ vi :: acc := by
  unfold insertShift
  set P := fun a => decide (lget keys vi < lget keys a) with hP
  calc (acc.reverse.dropWhile P).reverse ++ vi :: (acc.reverse.takeWhile P).reverse
      ~ vi :: ((acc.reverse.dropWhile P).reverse ++ (acc.reverse.takeWhile P).reverse) :=
        List.perm_middle
    _ = vi :: (acc.reverse.takeWhile P ++ acc.reverse.dropWhile P).reverse := by
        rw [List.reverse_append]
    _ = vi :: acc := by rw [List.takeWhile_append_dropWhile, List.reverse_reverse]

theorem insSort_perm (keys : List Nat) (seg : List Nat) : insSort keys seg ~ seg := by
  suffices h : ∀ acc, seg.foldl (insertShift keys) acc ~ acc ++ seg by
    simpa using h []
  induction seg with
  | nil => intro acc; simp
  | cons x xs ih =>
      intro acc
      calc (x :: xs).foldl (insertShift keys) acc = xs.foldl (insertShift keys) (insertShift keys acc x) := rfl
        _ ~ insertShift keys acc x ++ xs := ih _
        _ ~ (x :: acc) ++ xs := (insertShift_perm keys acc x).append_right _
        _ ~ acc ++ x :: xs := by
            rw [List.cons_append]
            exact (List.perm_middle).symm

theorem scanUp_ge (keys : List Nat) (vp : Nat) (t : List Nat) (i fuel : Nat) :
    i + 1 ≤ scanUp keys vp t i fuel := by
  induction fuel generalizing i with
  | zero => simp [scanUp]
  | succ n ih =>
      unfold scanUp
      by_cases h : kAt keys t (i + 1) < vp
      · simp only [h, if_pos]
        exact Nat.le_trans (Nat.le_succ _) (ih (i + 1))
      · simp [h]

theorem partLoop_perm (keys : List Nat) (vp : Nat) (fuel : Nat) (t : List Nat)
    (pi pj : Nat) : (partLoop keys vp fuel t pi pj).1 ~ t := by
  induction fuel generalizing t pi pj with
  | zero => simp [partLoop]
  | succ n ih =>
      unfold partLoop
      by_cases h : scanUp keys vp t pi (t.length + 2) ≥ scanDown keys vp t pj (t.length + 2)
      · simp [h]
      · simp only [h, if_neg, not_false_iff]
        exact (ih _ _ _).trans (lswap_perm _ _ _)

theorem condSwap_perm (c : Prop) [Decidable c] (t : List Nat) (i j : Nat) :
    (if c then lswap t i j else t) ~ t := by
  split
  · exact lswap_perm t i j
  · exact List.Perm.refl t

theorem partitionStep_perm (keys : List Nat) (t : List Nat) (pl pr : Nat) :
    (partitionStep keys t pl pr).1 ~ t := by
  unfold partitionStep
  dsimp only
  exact (lswap_perm _ _ _).trans ((partLoop_perm _ _ _ _ _ _).trans ((lswap_perm _ _ _).trans
    ((condSwap_perm _ _ _ _).trans ((condSwap_perm _ _ _ _).trans (condSwap_perm _ _ _ _)))))

theorem getD_set_ne {l : List α} {i k : Nat} (h : i ≠ k) (a d : α) :
    (l.set i a).getD k d = l.getD k d := by
  simp [List.getD_eq_getElem?_getD, List.getElem?_set_ne h]

theorem getD_set_self {l : List α} {i : Nat} (h : i < l.length) (a d : α) :
    (l.set i a).getD i d = a := by
  have h2 : i < (l.set i a).length := by simpa using h
  rw [getD_eq_getElem_of_lt h2, List.getElem_set_self h2]

theorem sift_set_perm (keys : List Nat) (n : Nat) :
    ∀ (fuel : Nat) (l : List Nat) (tmp i j : Nat), 1 ≤ i → i ≤ n → n ≤ l.length → i < j →
      ((sift keys n fuel l tmp i j).1).set ((sift keys n fuel l tmp i j).2 - 1) tmp ~
        l.set (i - 1) tmp := by
  intro fuel
  induction fuel with
  | zero => intro l tmp i j _ _ _ _; simp [sift]
  | succ f ih =>
      intro l tmp i j hi1 hin hnl hij
      unfold sift
      by_cases hj : j ≤ n
      · simp only [hj, if_true]
        set j2 := if j < n && lget keys (lget l (j - 1)) < lget keys (lget l j) then j + 1
          else j with hj2def
        have hj2n : j2 ≤ n := by
          rw [hj2def]
          split
          · rename_i hc
            simp only [Bool.and_eq_true, decide_eq_true_eq] at hc
            omega
          · exact hj
        have hij2 : i < j2 := by
          rw [hj2def]; split <;> omega
        by_cases hk : lget keys tmp < lget keys (lget l (j2 - 1))
        · simp only [hk, if_true]
          have hlen : n ≤ (l.set (i - 1) (lget l (j2 - 1))).length := by simpa using hnl
          have hrec := ih (l.set (i - 1) (lget l (j2 - 1))) tmp j2 (j2 + j2)
            (by omega) hj2n hlen (by omega)
          refine hrec.trans ?_
          have hi1lt : i - 1 < l.length := by omega
          have hj21lt : j2 - 1 < l.length := by omega
          have hne : i - 1 ≠ j2 - 1 := by omega
          have e1 : (l.set (i - 1) (lget l (j2 - 1))).set (j2 - 1) tmp =
              ((l.set (i - 1) tmp).set (i - 1)
                ((l.set (i - 1) tmp).getD (j2 - 1) 0)).set (j2 - 1)
                ((l.set (i - 1) tmp).getD (i - 1) 0) := by
            rw [getD_set_ne hne, getD_set_self hi1lt, List.set_set]
            exact rfl
          rw [e1]
          have hi2 : i - 1 < (l.set (i - 1) tmp).length := by simpa using hi1lt
          have hj22 : j2 - 1 < (l.set (i - 1) tmp).length := by simpa using hj21lt
          exact double_set_perm hi2 hj22 0
        · simp [hk]
      · simp [hj]

theorem heapify_perm (keys : List Nat) (n : Nat) :
    ∀ (li : Nat) (l : List Nat), 2 * li ≤ n → n ≤ l.length → heapify keys n li l ~ l := by
  intro li
  induction li with
  | zero => intro l _ _; simp [heapify]
  | succ li ih =>
      intro l hli hnl
      unfold heapify
      dsimp only
      have hs := sift_set_perm keys n (n + 2) l (lget l (li + 1 - 1)) (li + 1) (2 * (li + 1))
        (by omega) (by omega) hnl (by omega)
      have he : l.set (li + 1 - 1) (lget l (li + 1 - 1)) = l := set_getD_self 0
      rw [he] at hs
      have hlen : n ≤ ((sift keys n (n + 2) l (lget l (li + 1 - 1)) (li + 1)
          (2 * (li + 1))).1.set ((sift keys n (n + 2) l (lget l (li + 1 - 1)) (li + 1)
          (2 * (li + 1))).2 - 1) (lget l (li + 1 - 1))).length := by
        rw [hs.length_eq]; exact hnl
      exact (ih _ (by omega) hlen).trans hs

theorem heapExtract_perm (keys : List Nat) :
    ∀ (m : Nat) (l : List Nat), m ≤ l.length → heapExtract keys m l ~ l := by
  intro m
  induction m using Nat.strong_induction_on with
  | _ m ih =>
      match m with
      | 0 => intro l _; simp [heapExtract]
      | 1 => intro l _; simp [heapExtract]
      | m + 2 =>
          intro l hm
          unfold heapExtract
          dsimp only
          have hm1lt : m + 2 - 1 < l.length := by omega
          have hlen1 : m + 1 ≤ (l.set (m + 2 - 1) (lget l 0)).length := by
            simp; omega
          have hs := sift_set_perm keys (m + 1) (m + 3) (l.set (m + 2 - 1) (lget l 0))
            (lget l (m + 2 - 1)) 1 2 (by omega) (by omega) hlen1 (by omega)
          have hd : (l.set (m + 2 - 1) (lget l 0)).set (1 - 1) (lget l (m + 2 - 1)) ~ l := by
            have : (1 : Nat) - 1 = 0 := rfl
            rw [this]
            have h0 : (0 : Nat) < l.length := by omega
            exact double_set_perm hm1lt h0 0
          have hs2 := hs.trans hd
          have hlen2 : m + 1 ≤ ((sift keys (m + 1) (m + 3) (l.set (m + 2 - 1) (lget l 0))
              (lget l (m + 2 - 1)) 1 2).1.set ((sift keys (m + 1) (m + 3)
              (l.set (m + 2 - 1) (lget l 0)) (lget l (m + 2 - 1)) 1 2).2 - 1)
              (lget l (m + 2 - 1))).length := by
            rw [hs2.length_eq]; omega
          exact (ih (m + 1) (by omega) _ hlen2).trans hs2

theorem heapsortList_perm (keys : List Nat) (l : List Nat) : heapsortList keys l ~ l := by
  unfold heapsortList
  have h1 : heapify keys l.length (l.length / 2) l ~ l :=
    heapify_perm keys l.length (l.length / 2) l (by omega) (Nat.le_refl _)
  have h2 : heapExtract keys l.length (heapify keys l.length (l.length / 2) l) ~
      heapify keys l.length (l.length / 2) l :=
    heapExtract_perm keys l.length _ (by rw [h1.length_eq])
  exact h2.trans h1

theorem heapsortSeg_perm (keys : List Nat) (t : List Nat) (pl pr : Nat) :
    heapsortSeg keys t pl pr ~ t :=
  writeSeg_perm (heapsortList_perm keys (readSeg t pl pr))

theorem qsLoop_perm (keys : List Nat) :
    ∀ (fuel : Nat) (t : List Nat) (depth : Int) (pl pr : Nat) (stack : List (Nat × Nat)),
      qsLoop keys fuel t depth pl pr stack ~ t := by
  intro fuel
  induction fuel with
  | zero => intro t depth pl pr stack; simp [qsLoop]
  | succ f ih =>
      intro t depth pl pr stack
      unfold qsLoop
      by_cases hbig : (pr : Int) - (pl : Int) > 15
      · simp only [hbig, if_true]
        by_cases hd : depth < 0
        · simp only [hd, if_true]
          cases stack with
          | nil => exact heapsortSeg_perm keys t pl pr
          | cons a rest =>
              cases a
              exact (ih _ _ _ _ _).trans (heapsortSeg_perm keys t pl pr)
        · simp only [hd, if_false]
          split
          · exact (ih _ _ _ _ _).trans (partitionStep_perm keys t pl pr)
          · exact (ih _ _ _ _ _).trans (partitionStep_perm keys t pl pr)
      · simp only [hbig, if_false]
        cases stack with
        | nil => exact writeSeg_perm (insSort_perm keys (readSeg t pl pr))
        | cons a rest =>
            cases a
            exact (ih _ _ _ _ _).trans (writeSeg_perm (insSort_perm keys (readSeg t pl pr)))

theorem npArgsort_perm (keys : List Nat) : npArgsort keys ~ List.range keys.length := by
  unfold npArgsort
  dsimp only
  by_cases h : keys.length = 0
  · simp [h]
  · simp only [h, if_false]
    exact qsLoop_perm keys _ _ _ _ _ _

theorem npArgsort_length (keys : List Nat) : (npArgsort keys).length = keys.length := by
  rw [(npArgsort_perm keys).length_eq, List.length_range]

theorem npArgsort_mem {keys : List Nat} {i : Nat} (h : i ∈ npArgsort keys) :
    i < keys.length := by
  have := (npArgsort_perm keys).mem_iff.1 h
  exact List.mem_range.1 this

theorem map_getD_range (l : List α) (d : α) :
    (List.range l.length).map (fun i => l.getD i d) = l := by
  apply List.ext_getElem
  · simp
  · intro n h1 h2
    simp only [List.getElem_map, List.getElem_range]
    exact getD_eq_getElem_of_lt h2 d

/-! Sortedness and stability of the insertion-sort path (ranges of at most 16
positions, in particular every input with at most 16 surviving rows). -/

/-- The strict order the stable sort realises on positions: strictly smaller
key, or equal keys in position order. -/
def keyRel (keys : List Nat) (i j : Nat) : Prop :=
  lget keys i < lget keys j ∨ (lget keys i = lget keys j ∧ i < j)

theorem dropWhile_key_le (keys : List Nat) (vi : Nat) :
    ∀ (rev : List Nat), rev.Pairwise (fun a b => keyRel keys b a) →
      ∀ x ∈ rev.dropWhile (fun a => decide (lget keys vi < lget keys a)),
        lget keys x ≤ lget keys vi := by
  intro rev
  induction rev with
  | nil => intro _ x hx; simp [List.dropWhile] at hx
  | cons a l ih =>
      intro hp x hx
      rw [List.dropWhile_cons] at hx
      by_cases ha : lget keys vi < lget keys a
      · rw [if_pos (by simpa using ha)] at hx
        exact ih (List.Pairwise.of_cons hp) x hx
      · rw [if_neg (by simpa using ha)] at hx
        have hle : lget keys a ≤ lget keys vi := Nat.le_of_not_lt ha
        rcases List.mem_cons.1 hx with rfl | hxl
        · exact hle
        · have hrel := (List.pairwise_cons.1 hp).1 x hxl
          rcases hrel with hlt | ⟨heq, _⟩
          · exact Nat.le_trans (Nat.le_of_lt hlt) hle
          · exact heq ▸ hle

theorem insertShift_pairwise (keys : List Nat) (acc : List Nat) (vi : Nat)
    (h1 : acc.Pairwise (keyRel keys)) (h2 : ∀ x ∈ acc, x < vi) :
    (insertShift keys acc vi).Pairwise (keyRel keys) := by
  unfold insertShift
  set P := fun a => decide (lget keys vi < lget keys a) with hP
  have hsplit : acc = (acc.reverse.dropWhile P).reverse ++ (acc.reverse.takeWhile P).reverse := by
    have h3 : acc.reverse.takeWhile P ++ acc.reverse.dropWhile P = acc.reverse :=
      List.takeWhile_append_dropWhile P acc.reverse
    have h4 := congrArg List.reverse h3
    rw [List.reverse_append, List.reverse_reverse] at h4
    exact h4.symm
  have hpair : ((acc.reverse.dropWhile P).reverse ++
      (acc.reverse.takeWhile P).reverse).Pairwise (keyRel keys) := hsplit ▸ h1
  rw [List.pairwise_append] at hpair
  obtain ⟨hL, hG, hLG⟩ := hpair
  have hrevp : acc.reverse.Pairwise (fun a b => keyRel keys b a) :=
    List.pairwise_reverse.2 h1
  have hLle : ∀ x ∈ (acc.reverse.dropWhile P).reverse, lget keys x ≤ lget keys vi := by
    intro x hx
    exact dropWhile_key_le keys vi acc.reverse hrevp x (List.mem_reverse.1 hx)
  have hGgt : ∀ g ∈ (acc.reverse.takeWhile P).reverse, lget keys vi < lget keys g := by
    intro g hg
    have := List.mem_takeWhile_imp (List.mem_reverse.1 hg)
    simpa [hP] using this
  rw [List.pairwise_append]
  refine ⟨hL, ?_, ?_⟩
  · rw [List.pairwise_cons]
    exact ⟨fun g hg => Or.inl (hGgt g hg), hG⟩
  · intro l hl y hy
    rcases List.mem_cons.1 hy with rfl | hyG
    · have hlv : l < y := h2 l (hsplit ▸ List.mem_append_left _ hl)
      rcases Nat.lt_or_ge (lget keys l) (lget keys y) with hlt | hge
      · exact Or.inl hlt
      · exact Or.inr ⟨Nat.le_antisymm (hLle l hl) hge, hlv⟩
    · exact hLG l hl y hyG

theorem insSort_pairwise (keys : List Nat) (seg : List Nat)
    (hseg : seg.Pairwise (· < ·)) : (insSort keys seg).Pairwise (keyRel keys) := by
  suffices h : ∀ acc, acc.Pairwise (keyRel keys) → (∀ x ∈ acc, ∀ v ∈ seg, x < v) →
      (seg.foldl (insertShift keys) acc).Pairwise (keyRel keys) by
    exact h [] (by simp) (by simp)
  induction seg with
  | nil => intro acc hacc _; simpa using hacc
  | cons v vs ih =>
      intro acc hacc hlt
      rw [List.pairwise_cons] at hseg
      refine ih hseg.2 (insertShift keys acc v)
        (insertShift_pairwise keys acc v hacc (fun x hx => hlt x hx v (List.mem_cons_self v vs)))
        ?_
      intro x hx w hw
      have hx2 := (insertShift_perm keys acc v).mem_iff.1 hx
      rcases List.mem_cons.1 hx2 with rfl | hxa
      · exact hseg.1 w hw
      · exact hlt x hxa w (List.mem_cons_of_mem v hw)

theorem insSort_nil (keys : List Nat) : insSort keys [] = [] := rfl

theorem npArgsort_small {keys : List Nat} (h : keys.length ≤ 16) :
    npArgsort keys = insSort keys (List.range keys.length) := by
  unfold npArgsort
  by_cases h0 : keys.length = 0
  · simp [h0, insSort]
  · simp only [h0, if_false]
    rw [show 4 * keys.length + 16 = (4 * keys.length + 15) + 1 from rfl]
    unfold qsLoop
    have hc : ¬((keys.length - 1 : Nat) : Int) - ((0 : Nat) : Int) > 15 := by omega
    simp only [hc, if_false]
    have hseg : readSeg (List.range keys.length) 0 (keys.length - 1) =
        List.range keys.length := by
      unfold readSeg
      rw [List.drop_zero]
      have : keys.length - 1 + 1 - 0 = keys.length := by omega
      rw [this]
      exact List.take_of_length_le (by simp)
    rw [hseg]
    unfold writeSeg
    have h2 : 0 + (keys.length - 1 + 1 - 0) = keys.length := by omega
    rw [h2]
    simp

theorem npArgsort_pairwise_small {keys : List Nat} (h : keys.length ≤ 16) :
    (npArgsort keys).Pairwise (keyRel keys) := by
  rw [npArgsort_small h]
  exact insSort_pairwise keys (List.range keys.length) (List.pairwise_lt_range _)

theorem sortValues_perm (surv : List Surv) : sortValues surv ~ surv := by
  unfold sortValues reorder
  have h1 : npArgsort (surv.map (·.date)) ~ List.range surv.length := by
    have := npArgsort_perm (surv.map (·.date))
    simpa using this
  calc (npArgsort (surv.map (·.date))).map (fun i => surv.getD i dummySurv)
      ~ (List.range surv.length).map (fun i => surv.getD i dummySurv) := h1.map _
    _ = surv := map_getD_range surv dummySurv

/-! Minimum and maximum of the date column: permutation invariance and
characterisation (pandas `Series.min` / `Series.max`). -/

theorem foldl_min_match (l : List Nat) (x : Nat) :
    l.foldl min x = (match l.min? with | none => x | some m => min x m) := by
  induction l generalizing x with
  | nil => rfl
  | cons a t ih =>
      rw [List.foldl_cons, ih (min x a), List.min?_cons', ih a]
      cases h : t.min? with
      | none => simp
      | some m => simp [Nat.min_assoc]

theorem foldl_max_match (l : List Nat) (x : Nat) :
    l.foldl max x = (match l.max? with | none => x | some m => max x m) := by
  induction l generalizing x with
  | nil => rfl
  | cons a t ih =>
      rw [List.foldl_cons, ih (max x a), List.max?_cons', ih a]
      cases h : t.max? with
      | none => simp
      | some m => simp [Nat.max_assoc]

theorem min?_perm {l₁ l₂ : List Nat} (h : l₁ ~ l₂) : l₁.min? = l₂.min? := by
  induction h with
  | nil => rfl
  | cons x _ ih =>
      rw [List.min?_cons', List.min?_cons', foldl_min_match, foldl_min_match, ih]
  | swap x y l =>
      rw [List.min?_cons', List.min?_cons', List.foldl_cons, List.foldl_cons,
        Nat.min_comm y x]
  | trans _ _ ih1 ih2 => rw [ih1, ih2]

theorem max?_perm {l₁ l₂ : List Nat} (h : l₁ ~ l₂) : l₁.max? = l₂.max? := by
  induction h with
  | nil => rfl
  | cons x _ ih =>
      rw [List.max?_cons', List.max?_cons', foldl_max_match, foldl_max_match, ih]
  | swap x y l =>
      rw [List.max?_cons', List.max?_cons', List.foldl_cons, List.foldl_cons,
        Nat.max_comm y x]
  | trans _ _ ih1 ih2 => rw [ih1, ih2]

theorem foldl_min_mem : ∀ (t : List Nat) (x : Nat), t.foldl min x = x ∨ t.foldl min x ∈ t := by
  intro t
  induction t with
  | nil => intro x; exact Or.inl rfl
  | cons y ys ih =>
      intro x
      rw [List.foldl_cons]
      rcases ih (min x y) with h | h
      · rcases Nat.le_total x y with hxy | hyx
        · exact Or.inl (by rw [h]; exact Nat.min_eq_left hxy)
        · exact Or.inr (by rw [h, Nat.min_eq_right hyx]; exact List.mem_cons_self y ys)
      · exact Or.inr (List.mem_cons_of_mem y h)

theorem foldl_min_le : ∀ (t : List Nat) (x : Nat),
    t.foldl min x ≤ x ∧ ∀ b ∈ t, t.foldl min x ≤ b := by
  intro t
  induction t with
  | nil => intro x; exact ⟨Nat.le_refl x, by simp⟩
  | cons y ys ih =>
      intro x
      rw [List.foldl_cons]
      obtain ⟨h1, h2⟩ := ih (min x y)
      refine ⟨Nat.le_trans h1 (Nat.min_le_left x y), ?_⟩
      intro b hb
      rcases List.mem_cons.1 hb with rfl | hb2
      · exact Nat.le_trans h1 (Nat.min_le_right x b)
      · exact h2 b hb2

theorem natMin_spec {l : List Nat} {m : Nat} (h : l.min? = some m) :
    m ∈ l ∧ ∀ b ∈ l, m ≤ b := by
  cases l with
  | nil => cases h
  | cons a t =>
      rw [List.min?_cons'] at h
      injection h with h
      subst h
      constructor
      · rcases foldl_min_mem t a with h | h
        · rw [h]; exact List.mem_cons_self a t
        · exact List.mem_cons_of_mem a h
      · intro b hb
        obtain ⟨h1, h2⟩ := foldl_min_le t a
        rcases List.mem_cons.1 hb with rfl | hb2
        · exact h1
        · exact h2 b hb2

theorem foldl_max_mem : ∀ (t : List Nat) (x : Nat), t.foldl max x = x ∨ t.foldl max x ∈ t := by
  intro t
  induction t with
  | nil => intro x; exact Or.inl rfl
  | cons y ys ih =>
      intro x
      rw [List.foldl_cons]
      rcases ih (max x y) with h | h
      · rcases Nat.le_total y x with hyx | hxy
        · exact Or.inl (by rw [h]; exact Nat.max_eq_left hyx)
        · exact Or.inr (by rw [h, Nat.max_eq_right hxy]; exact List.mem_cons_self y ys)
      · exact Or.inr (List.mem_cons_of_mem y h)

theorem foldl_max_le : ∀ (t : List Nat) (x : Nat),
    x ≤ t.foldl max x ∧ ∀ b ∈ t, b ≤ t.foldl max x := by
  intro t
  induction t with
  | nil => intro x; exact ⟨Nat.le_refl x, by simp⟩
  | cons y ys ih =>
      intro x
      rw [List.foldl_cons]
      obtain ⟨h1, h2⟩ := ih (max x y)
      refine ⟨Nat.le_trans (Nat.le_max_left x y) h1, ?_⟩
      intro b hb
      rcases List.mem_cons.1 hb with rfl | hb2
      · exact Nat.le_trans (Nat.le_max_right x b) h1
      · exact h2 b hb2

theorem natMax_spec {l : List Nat} {m : Nat} (h : l.max? = some m) :
    m ∈ l ∧ ∀ b ∈ l, b ≤ m := by
  cases l with
  | nil => cases h
  | cons a t =>
      rw [List.max?_cons'] at h
      injection h with h
      subst h
      constructor
      · rcases foldl_max_mem t a with h | h
        · rw [h]; exact List.mem_cons_self a t
        · exact List.mem_cons_of_mem a h
      · intro b hb
        obtain ⟨h1, h2⟩ := foldl_max_le t a
        rcases List.mem_cons.1 hb with rfl | hb2
        · exact h1
        · exact h2 b hb2

theorem min?_isSome_of_ne_nil {l : List Nat} (h : l ≠ []) : l.min?.isSome := by
  cases l with
  | nil => exact absurd rfl h
  | cons a t => simp [List.min?_cons']

theorem max?_isSome_of_ne_nil {l : List Nat} (h : l ≠ []) : l.max?.isSome := by
  cases l with
  | nil => exact absurd rfl h
  | cons a t => simp [List.max?_cons']

/-! Facts about the survivor construction. -/

theorem survAux_length : ∀ (i : Nat) (rows : List (List Cell)) (ds : List (Option Nat))
    (as : List (Option FV)), rows.length = ds.length → ds.length = as.length →
    (survAux i rows ds as).length =
      (ds.zip as).countP (fun p => p.1.isSome && p.2.isSome) := by
  intro i rows
  induction rows generalizing i with
  | nil =>
      intro ds as h1 h2
      have : ds = [] := List.length_eq_zero.1 h1.symm
      subst this
      simp [survAux]
  | cons r rs ih =>
      intro ds as h1 h2
      cases ds with
      | nil => simp at h1
      | cons d ds2 =>
          cases as with
          | nil => simp at h2
          | cons a as2 =>
              simp only [List.length_cons, Nat.add_right_cancel_iff] at h1 h2
              cases d <;> cases a <;>
                simp [survAux, List.zip_cons_cons, List.countP_cons, ih _ _ _ h1 h2]

theorem survAux_idx_ge : ∀ (i : Nat) (rows : List (List Cell)) (ds : List (Option Nat))
    (as : List (Option FV)) (s : Surv), s ∈ survAux i rows ds as → i ≤ s.idx := by
  intro i rows
  induction rows generalizing i with
  | nil => intro ds as s hs; simp [survAux] at hs
  | cons r rs ih =>
      intro ds as s hs
      cases ds with
      | nil => simp [survAux] at hs
      | cons d ds2 =>
          cases as with
          | nil => simp [survAux] at hs
          | cons a as2 =>
              cases d <;> cases a <;> simp only [survAux] at hs
              case none.none | none.some | some.none =>
                exact Nat.le_of_succ_le (ih (i + 1) ds2 as2 s hs)
              case some.some =>
                rcases List.mem_cons.1 hs with rfl | hs2
                · exact Nat.le_refl _
                · exact Nat.le_of_succ_le (ih (i + 1) ds2 as2 s hs2)

theorem survAux_idx_pairwise : ∀ (i : Nat) (rows : List (List Cell))
    (ds : List (Option Nat)) (as : List (Option FV)),
    (survAux i rows ds as).Pairwise (fun a b => a.idx < b.idx) := by
  intro i rows
  induction rows generalizing i with
  | nil => intro ds as; simp [survAux]
  | cons r rs ih =>
      intro ds as
      cases ds with
      | nil => simp [survAux]
      | cons d ds2 =>
          cases as with
          | nil => simp [survAux]
          | cons a as2 =>
              cases d <;> cases a <;> simp only [survAux]
              case none.none | none.some | some.none => exact ih (i + 1) ds2 as2
              case some.some =>
                rw [List.pairwise_cons]
                refine ⟨fun s hs => ?_, ih (i + 1) ds2 as2⟩
                exact Nat.lt_of_lt_of_le (Nat.lt_succ_self i)
                  (survAux_idx_ge (i + 1) rs ds2 as2 s hs)

theorem survAux_mem : ∀ (i : Nat) (rows : List (List Cell)) (ds : List (Option Nat))
    (as : List (Option FV)) (s : Surv), s ∈ survAux i rows ds as →
    ∃ k, k < rows.length ∧ s.cells = rows.getD k [] ∧ ds.getD k none = some s.date ∧
      as.getD k none = some s.amount ∧ s.idx = i + k := by
  intro i rows
  induction rows generalizing i with
  | nil => intro ds as s hs; simp [survAux] at hs
  | cons r rs ih =>
      intro ds as s hs
      cases ds with
      | nil => simp [survAux] at hs
      | cons d ds2 =>
          cases as with
          | nil => simp [survAux] at hs
          | cons a as2 =>
              cases d <;> cases a <;> simp only [survAux] at hs
              case none.none | none.some | some.none =>
                obtain ⟨k, hk, hc, hd, ha, hi⟩ := ih (i + 1) ds2 as2 s hs
                exact ⟨k + 1, by simpa using hk, by simpa using hc, by simpa using hd,
                  by simpa using ha, by omega⟩
              case some.some =>
                rcases List.mem_cons.1 hs with rfl | hs2
                · exact ⟨0, by simp, by simp, by simp, by simp, by simp⟩
                · obtain ⟨k, hk, hc, hd, ha, hi⟩ := ih (i + 1) ds2 as2 s hs2
                  exact ⟨k + 1, by simpa using hk, by simpa using hc, by simpa using hd,
                    by simpa using ha, by omega⟩

theorem survAux_shift : ∀ (i : Nat) (rows : List (List Cell)) (ds : List (Option Nat))
    (as : List (Option FV)), survAux i rows ds as =
      (survAux 0 rows ds as).map (fun s => ⟨s.idx + i, s.date, s.amount, s.cells⟩) := by
  have key : ∀ (rows : List (List Cell)) (i : Nat) (ds : List (Option Nat))
      (as : List (Option FV)) (j : Nat), survAux (i + j) rows ds as =
        (survAux i rows ds as).map (fun s => ⟨s.idx + j, s.date, s.amount, s.cells⟩) := by
    intro rows
    induction rows with
    | nil => intro i ds as j; cases ds <;> cases as <;> simp [survAux]
    | cons r rs ih =>
        intro i ds as j
        cases ds with
        | nil => simp [survAux]
        | cons d ds2 =>
            cases as with
            | nil => cases d <;> simp [survAux]
            | cons a as2 =>
                cases d <;> cases a <;> simp only [survAux]
                case none.none | none.some | some.none =>
                  rw [show i + j + 1 = (i + 1) + j by omega]
                  exact ih (i + 1) ds2 as2 j
                case some.some =>
                  rw [show i + j + 1 = (i + 1) + j by omega]
                  rw [ih (i + 1) ds2 as2 j]
                  simp
  intro i rows ds as
  have := key rows 0 ds as i
  simpa using this

theorem survAux_append : ∀ (i : Nat) (rows1 rows2 : List (List Cell))
    (ds1 ds2 : List (Option Nat)) (as1 as2 : List (Option FV)),
    rows1.length = ds1.length → ds1.length = as1.length →
    survAux i (rows1 ++ rows2) (ds1 ++ ds2) (as1 ++ as2) =
      survAux i rows1 ds1 as1 ++ survAux (i + rows1.length) rows2 ds2 as2 := by
  intro i rows1
  induction rows1 generalizing i with
  | nil =>
      intro rows2 ds1 ds2 as1 as2 h1 h2
      have : ds1 = [] := List.length_eq_zero.1 h1.symm
      subst this
      have : as1 = [] := List.length_eq_zero.1 h2.symm
      subst this
      simp [survAux]
  | cons r rs ih =>
      intro rows2 ds1 ds2 as1 as2 h1 h2
      cases ds1 with
      | nil => simp at h1
      | cons d ds12 =>
          cases as1 with
          | nil => simp at h2
          | cons a as12 =>
              simp only [List.length_cons, Nat.add_right_cancel_iff] at h1 h2
              have harith : i + (rs.length + 1) = (i + 1) + rs.length := by omega
              cases d <;> cases a <;>
                (simp only [List.cons_append, survAux, List.length_cons, harith]
                 first
                   | exact ih (i + 1) rows2 ds12 ds2 as12 as2 h1 h2
                   | exact congrArg (List.cons _) (ih (i + 1) rows2 ds12 ds2 as12 as2 h1 h2))

/-! Facts about the loop body and column extraction. -/

theorem buildTrns_ok_eq {cols : List String} {intdt : Bool} {nc mc : Option String} :
    ∀ {l : List Surv} {ts : List Trn}, buildTrns cols intdt nc mc l = .ok ts →
      ts = l.map (mkTrn cols intdt nc mc) := by
  intro l
  induction l with
  | nil => intro ts h; simp only [buildTrns] at h; cases h; rfl
  | cons s rest ih =>
      intro ts h
      simp only [buildTrns] at h
      cases hm : colCheck cols mc with
      | some e => rw [hm] at h; cases h
      | none =>
          rw [hm] at h
          cases hn : colCheck cols nc with
          | some e => rw [hn] at h; cases h
          | none =>
              rw [hn] at h
              cases hb : buildTrns cols intdt nc mc rest with
              | error e => rw [hb] at h; cases h
              | ok ts2 =>
                  rw [hb] at h
                  cases h
                  rw [List.map_cons, ih hb]

theorem buildTrns_ok_of_cols {cols : List String} {intdt : Bool} {nc mc : Option String}
    (h1 : colCheck cols mc = none) (h2 : colCheck cols nc = none) :
    ∀ (l : List Surv), buildTrns cols intdt nc mc l = .ok (l.map (mkTrn cols intdt nc mc)) := by
  intro l
  induction l with
  | nil => rfl
  | cons s rest ih => simp [buildTrns, h1, h2, ih]

theorem getCol_isSome_iff {df : DataFrame} {c : String} :
    (getCol df c).isSome ↔ c ∈ df.cols := by
  unfold getCol
  rw [Option.isSome_map']
  rw [List.findIdx?_isSome]
  simp

theorem getCol_length {df : DataFrame} {c : String} {col : List Cell}
    (h : getCol df c = some col) : col.length = df.table.length := by
  unfold getCol at h
  cases hf : df.cols.findIdx? (fun x => x = c) with
  | none => rw [hf] at h; cases h
  | some j =>
      rw [hf] at h
      simp only [Option.map_some'] at h
      cases h
      simp

/-! Claim C3. -/

/-- C3, counterexample: for the memo `"a\tb"` the identifier produced by the
code keeps the interior tab character, whereas the claim states that all
interior whitespace characters are stripped from the final string; only the
space character is removed (`.replace(" ", "")`). -/
theorem c3_counterexample :
    generate_fitid 0 20240105 ⟨⟨100, 0⟩, false⟩ "a\tb" ≠
      fitidSpecStated 0 20240105 ⟨⟨100, 0⟩, false⟩ "a\tb" := by decide

/-- C3, amended: for every (sourceIndex, date, amount, memo) input,
`generate_fitid` returns the date formatted `YYYYMMDD`, the amount formatted
with exactly two decimal digits, and the source index, joined by a fixed
delimiter, with the memo's first 20 characters (whitespace-trimmed) appended
as a further delimited segment when the memo is non-empty, and with all
space characters (not all whitespace) removed from the final string. -/
theorem c3_amended (row_index : Nat) (when : Nat) (amount : FV) (memo : String) :
    generate_fitid row_index when amount memo =
      fitidSpecSpaces row_index when amount memo := by
  unfold generate_fitid fitidSpecSpaces fitidSegments joinDash
  by_cases h : memo = ""
  · simp [h, joinDash, String.append_assoc]
  · simp [h, joinDash, String.append_assoc]

/-! Claim C9. -/

/-- `amountsOf` under an absent plain amount column name: the lookup fails. -/
theorem amountsOf_none {df : DataFrame} {amount_col : String} {gd : List (Option Nat)}
    {invert : Bool} (hne : amount_col ≠ "__date") (ha : getCol df amount_col = none) :
    amountsOf df amount_col gd invert = none := by
  unfold amountsOf
  rw [if_neg hne, ha]
  rfl

/-- Frame for the C9 counterexample: no source column named `__date`. -/
def c9cdf : DataFrame := ⟨["d"], [[Cell.str "1970-01-01"]]⟩

/-- C9, counterexample: mapping the amount column to the name `__date`, which
is absent from the source's column set, does not fail — line 58 assigns
`df["__date"]` (the parsed dates) before line 59's lookup, so the lookup
succeeds, `to_numeric` views the datetime64 column as int64 epoch
nanoseconds, and a full document is rendered.  This contradicts the claim
that an absent mapped amount column name always fails the conversion. -/
theorem c9_counterexample :
    ("__date" ∉ c9cdf.cols) ∧
      (render_ofx c9cdf ⟨"b", "i", "CHECKING", "USD", "o", "f"⟩ "d" "__date" none none false ""
        ⟨20240101, 0, 0, 0⟩).toOption.isSome = true := by decide

/-- C9, amended: when the mapped date column name is absent from the source's
column set, or the mapped amount column name is absent from the source's
column set and is not the synthesized name `__date`, the conversion fails as
a whole with a `KeyError` and no document text is returned (the error is
produced before any line of the document is assembled).  Mapping the amount
to `__date` is the exception: line 58 synthesizes that column before line
59's lookup. -/
theorem c9_amended (df : DataFrame) (meta : OfxMeta)
    (date_col amount_col : String) (name_col memo_col : Option String)
    (invert : Bool) (date_format : String) (now : Now)
    (h : date_col ∉ df.cols ∨ (amount_col ∉ df.cols ∧ amount_col ≠ "__date")) :
    ∃ e, render_ofx df meta date_col amount_col name_col memo_col invert date_format now =
      .error e := by
  unfold render_ofx renderLines transactions
  by_cases hd : date_col ∈ df.cols
  · have ha : amount_col ∉ df.cols ∧ amount_col ≠ "__date" := by
      rcases h with h1 | h1
      · exact absurd hd h1
      · exact h1
    have hga : getCol df amount_col = none := by
      rw [← Option.not_isSome_iff_eq_none, getCol_isSome_iff]
      exact ha.1
    cases hgd : getCol df date_col with
    | none => exact ⟨"KeyError: " ++ date_col, rfl⟩
    | some dcol =>
        have hao : amountsOf df amount_col (dcol.map (parse_date date_format)) invert = none :=
          amountsOf_none ha.2 hga
        exact ⟨"KeyError: " ++ amount_col,
          by simp [hao, Bind.bind, Except.bind, Except.map]⟩
  · have hgd : getCol df date_col = none := by
      rw [← Option.not_isSome_iff_eq_none, getCol_isSome_iff]
      exact hd
    exact ⟨"KeyError: " ++ date_col, by simp [hgd, Bind.bind, Except.bind, Except.map]⟩

/-- C9, witness: a concrete frame whose column set lacks the mapped date
column gives an error result. -/
theorem c9_witness :
    ("date" ∉ (DataFrame.mk ["a"] [[Cell.str "1"]]).cols ∨
        ("a" ∉ (DataFrame.mk ["a"] [[Cell.str "1"]]).cols ∧ ("a" : String) ≠ "__date")) ∧
      ∃ e, render_ofx (DataFrame.mk ["a"] [[Cell.str "1"]])
        ⟨"b", "i", "CHECKING", "USD", "o", "f"⟩ "date" "a" none none false ""
        ⟨20240101, 0, 0, 0⟩ = .error e :=
  ⟨by decide,
    c9_amended (DataFrame.mk ["a"] [[Cell.str "1"]])
      ⟨"b", "i", "CHECKING", "USD", "o", "f"⟩ "date" "a" none none false ""
      ⟨20240101, 0, 0, 0⟩ (by decide)⟩

/-- Characterisation of a successful conversion: the date column resolves in
the source frame, the amount lookup resolves in the mutated frame, and the
transaction list is the sorted survivors passed through the loop body. -/
theorem transactions_ok_eq {df : DataFrame} {date_col amount_col : String}
    {name_col memo_col : Option String} {invert : Bool} {date_format : String}
    {ts : List Trn}
    (h : transactions df date_col amount_col name_col memo_col invert date_format = .ok ts) :
    ∃ dcol ga intdt, getCol df date_col = some dcol ∧
      amountsOf df amount_col (dcol.map (parse_date date_format)) invert = some (ga, intdt) ∧
      ts = (sortValues (survAux 0 df.table (dcol.map (parse_date date_format)) ga)).map
        (mkTrn df.cols intdt name_col memo_col) := by
  unfold transactions at h
  split at h
  next => cases h
  next dcol hgd =>
    split at h
    next => cases h
    next p hga =>
      exact ⟨dcol, p.1, p.2, hgd, by rw [hga], buildTrns_ok_eq h⟩

/-- `amountsOf` under a plain (non-synthesized) amount column name: the
lookup and dtype of the source column. -/
theorem amountsOf_plain {df : DataFrame} {amount_col : String} {gd : List (Option Nat)}
    {invert : Bool} {acol : List Cell} (hne : amount_col ≠ "__date")
    (ha : getCol df amount_col = some acol) :
    amountsOf df amount_col gd invert =
      some (normalize_amount acol invert, intDtype acol) := by
  unfold amountsOf
  rw [if_neg hne, ha]
  rfl

theorem string_data_append (a b : String) : (a ++ b).data = a.data ++ b.data := by
  cases a; cases b; rfl

instance instDecEqExcept {e a : Type} [DecidableEq e] [DecidableEq a] :
    DecidableEq (Except e a) := fun x y =>
  match x, y with
  | .ok u, .ok v =>
      if h : u = v then isTrue (by rw [h]) else isFalse (by intro hc; cases hc; exact h rfl)
  | .error u, .error v =>
      if h : u = v then isTrue (by rw [h]) else isFalse (by intro hc; cases hc; exact h rfl)
  | .ok _, .error _ => isFalse (by intro hc; cases hc)
  | .error _, .ok _ => isFalse (by intro hc; cases hc)

/-- Unfolding of the identifier for a non-empty memo. -/
theorem generate_fitid_nonempty (i d : Nat) (a : FV) (memo : String) (h : memo ≠ "") :
    generate_fitid i d a memo =
      removeSpaces ((fmt8 d ++ "-" ++ fmtAmt a ++ "-" ++ toString i) ++ "-" ++
        strTake20 (pyStrip memo)) := by
  simp only [generate_fitid, h, ne_eq, not_false_eq_true, if_true, ite_true]

theorem string_mk_append (l1 l2 : List Char) :
    String.mk (l1 ++ l2) = String.mk l1 ++ String.mk l2 := rfl

theorem removeSpaces_append (a b : String) :
    removeSpaces (a ++ b) = removeSpaces a ++ removeSpaces b := by
  unfold removeSpaces
  rw [string_data_append, List.filter_append, string_mk_append]

/-! Claim C8. -/

/-- C8: for every output transaction, the rendered NAME equals the
transaction's memo when no name column was mapped (and the memo is what fills
the name, hence non-empty memo renders as itself), and when both the computed
name and memo are empty, NAME renders as the literal text `Transaction`. -/
theorem c8_name_defaults (df : DataFrame) (date_col amount_col : String)
    (name_col memo_col : Option String) (invert : Bool) (date_format : String)
    (ts : List Trn)
    (ht : transactions df date_col amount_col name_col memo_col invert date_format = .ok ts)
    (t : Trn) (htm : t ∈ ts) :
    (name_col = none → t.memo ≠ "" → nameRendered t = t.memo) ∧
      (t.name = "" → t.memo = "" → nameRendered t = "Transaction") := by
  obtain ⟨dcol, ga, intdt, _, _, hts⟩ := transactions_ok_eq ht
  subst hts
  obtain ⟨s, _, rfl⟩ := List.mem_map.1 htm
  constructor
  · intro hnc hmemo
    subst hnc
    unfold mkTrn nameRendered at *
    simp only at *
    rw [if_neg hmemo]
  · intro hname _
    unfold nameRendered
    rw [if_pos hname]

/-- A concrete frame for the C8 witness: memo column mapped, no name column. -/
def c8df : DataFrame :=
  ⟨["d", "a", "m"], [[Cell.str "2024-01-05", Cell.str "1", Cell.str "hello"]]⟩

/-- The transaction c8df converts to. -/
def c8trn : Trn :=
  ⟨0, 20240105, ⟨⟨1, 0⟩, false⟩, "hello", "hello", "20240105-1.00-0-hello",
    [Cell.str "2024-01-05", Cell.str "1", Cell.str "hello"]⟩

/-- C8, witness: on a concrete row with a non-empty memo and no mapped name
column, NAME renders as the memo. -/
theorem c8_witness :
    transactions c8df "d" "a" none (some "m") false "" = .ok [c8trn] ∧
      nameRendered c8trn = c8trn.memo :=
  ⟨by decide,
    (c8_name_defaults c8df "d" "a" none (some "m") false "" [c8trn] (by decide) c8trn
      (by decide)).1 rfl (by decide)⟩

/-! Claim C10. -/

/-- Frame for the C10 counterexample: a source column named `__date` with a
missing cell, mapped as the memo column. -/
def c10cdf : DataFrame :=
  ⟨["d", "a", "__date"], [[Cell.str "1970-01-02", Cell.str "5", Cell.missing]]⟩

/-- C10, counterexample: the mapped memo column's source cell is missing, yet
MEMO does not render the literal `nan` — line 58 overwrote the `__date`
column with the parsed dates before the loop, so `str(row["__date"])` is the
timestamp text of the row's parsed date, contradicting the claim for every
mapped name or memo column bearing a synthesized column's name. -/
theorem c10_counterexample :
    cellD c10cdf.cols [Cell.str "1970-01-02", Cell.str "5", Cell.missing] "__date" =
        Cell.missing ∧
      (transactions c10cdf "d" "a" none (some "__date") false "").map
        (fun ts => ts.map (fun t => t.memo)) = .ok ["1970-01-02 00:00:00"] ∧
      ("1970-01-02 00:00:00" : String) ≠ "nan" := by decide

/-- C10, amended: a missing (NaN) cell under a mapped name or memo column
whose name is not one of the synthesized columns `__date` / `__amount` is
stringified to the literal `nan`, so MEMO renders as `nan`, the FITID gains a
`-nan` segment, and NAME renders as `nan` rather than falling back to the
memo or to `Transaction`.  (A mapped column named `__date` or `__amount`
instead reads the value synthesized at lines 58–59 — see the
counterexample.) -/
theorem c10_amended (df : DataFrame) (date_col amount_col : String)
    (name_col memo_col : Option String) (invert : Bool) (date_format : String)
    (ts : List Trn)
    (ht : transactions df date_col amount_col name_col memo_col invert date_format = .ok ts)
    (t : Trn) (htm : t ∈ ts) :
    (∀ mc, memo_col = some mc → mc ≠ "__date" → mc ≠ "__amount" →
        cellD df.cols t.cells mc = Cell.missing →
        t.memo = "nan" ∧ ∃ p, t.fitid = p ++ "-nan") ∧
      (∀ nc, name_col = some nc → nc ≠ "__date" → nc ≠ "__amount" →
        cellD df.cols t.cells nc = Cell.missing →
        t.name = "nan" ∧ nameRendered t = "nan") := by
  obtain ⟨dcol, ga, intdt, _, _, hts⟩ := transactions_ok_eq ht
  subst hts
  obtain ⟨s, _, rfl⟩ := List.mem_map.1 htm
  have hcells : (mkTrn df.cols intdt name_col memo_col s).cells = s.cells := rfl
  constructor
  · intro mc hmc h1 h2 hmiss
    subst hmc
    rw [hcells] at hmiss
    have hmemo : (mkTrn df.cols intdt name_col (some mc) s).memo = "nan" := by
      unfold mkTrn rowStr
      simp only
      rw [if_neg h1, if_neg h2, hmiss]
      decide
    refine ⟨hmemo, ?_⟩
    have hfit : (mkTrn df.cols intdt name_col (some mc) s).fitid =
        generate_fitid s.idx s.date s.amount
          ((mkTrn df.cols intdt name_col (some mc) s).memo) := by
      unfold mkTrn
      simp only
    rw [hfit, hmemo, generate_fitid_nonempty s.idx s.date s.amount "nan" (by decide)]
    rw [show strTake20 (pyStrip "nan") = "nan" from by decide]
    refine ⟨removeSpaces (fmt8 s.date ++ "-" ++ fmtAmt s.amount ++ "-" ++ toString s.idx), ?_⟩
    rw [String.append_assoc, show ("-" ++ "nan" : String) = "-nan" from rfl,
      removeSpaces_append]
    rw [show removeSpaces "-nan" = "-nan" from by decide]
  · intro nc hnc h1 h2 hmiss
    subst hnc
    rw [hcells] at hmiss
    have hname : (mkTrn df.cols intdt (some nc) memo_col s).name = "nan" := by
      unfold mkTrn rowStr
      simp only
      rw [if_neg h1, if_neg h2, hmiss]
      decide
    refine ⟨hname, ?_⟩
    unfold nameRendered
    rw [hname]
    decide

/-- A concrete frame for the C10 witness: mapped name and memo columns with
missing cells. -/
def c10df : DataFrame :=
  ⟨["d", "a", "n", "m"], [[Cell.str "2024-01-05", Cell.str "1", Cell.missing, Cell.missing]]⟩

/-- The transaction c10df converts to. -/
def c10trn : Trn :=
  ⟨0, 20240105, ⟨⟨1, 0⟩, false⟩, "nan", "nan", "20240105-1.00-0-nan",
    [Cell.str "2024-01-05", Cell.str "1", Cell.missing, Cell.missing]⟩

/-- C10, witness: on a concrete row with missing name and memo cells under
ordinary column names, the memo is the literal `nan` and the FITID carries a
`-nan` segment. -/
theorem c10_witness :
    transactions c10df "d" "a" (some "n") (some "m") false "" = .ok [c10trn] ∧
      (c10trn.memo = "nan" ∧ ∃ p, c10trn.fitid = p ++ "-nan") :=
  ⟨by decide,
    (c10_amended c10df "d" "a" (some "n") (some "m") false "" [c10trn] (by decide) c10trn
      (by decide)).1 "m" rfl (by decide) (by decide) (by decide)⟩

/-! Claim C2. -/

/-- A concrete frame and metadata for the C2 theorems. -/
def c2wdf : DataFrame := ⟨["d", "a"], [[Cell.str "2024-01-05", Cell.str "1"]]⟩

/-- Metadata for the C2 theorems. -/
def c2meta : OfxMeta := ⟨"0000", "000000000", "CHECKING", "USD", "ORG", "FID"⟩

/-- First processing timestamp. -/
def c2now1 : Now := ⟨20240101, 1, 2, 3⟩

/-- Second processing timestamp. -/
def c2now2 : Now := ⟨20240202, 4, 5, 6⟩

/-- C2, counterexample: two invocations with identical logical input (same
rows, same mapping, same metadata, same options) at different wall-clock
times produce different document text — the `<DTSERVER>` line embeds
`datetime.now()` — so `render_ofx` is not deterministic in its logical
input. -/
theorem c2_counterexample :
    render_ofx c2wdf c2meta "d" "a" none none false "" c2now1 ≠
      render_ofx c2wdf c2meta "d" "a" none none false "" c2now2 := by decide

/-- C2, amended: the conversion is deterministic in the logical input plus
the processing timestamp; with at least one surviving transaction, two
invocations at different times differ at most in the `<DTSERVER>` line (line
index 17): erasing it yields byte-identical line lists. -/
theorem c2_amended (df : DataFrame) (meta : OfxMeta) (date_col amount_col : String)
    (name_col memo_col : Option String) (invert : Bool) (date_format : String)
    (now1 now2 : Now) (ts : List Trn) (l1 l2 : List String)
    (ht : transactions df date_col amount_col name_col memo_col invert date_format = .ok ts)
    (hne : ts ≠ [])
    (h1 : renderLines df meta date_col amount_col name_col memo_col invert date_format now1 =
      .ok l1)
    (h2 : renderLines df meta date_col amount_col name_col memo_col invert date_format now2 =
      .ok l2) :
    l1.eraseIdx 17 = l2.eraseIdx 17 := by
  have hmap : ts.map (·.date) ≠ [] := by
    intro hc
    exact hne (List.map_eq_nil_iff.1 hc)
  obtain ⟨m, hm⟩ := Option.isSome_iff_exists.1 (min?_isSome_of_ne_nil hmap)
  obtain ⟨mx, hmx⟩ := Option.isSome_iff_exists.1 (max?_isSome_of_ne_nil hmap)
  have hds : ∀ now : Now, dtStart ts now = m := by
    intro now
    unfold dtStart
    rw [hm]
    rfl
  have hde : ∀ now : Now, dtEnd ts now = mx := by
    intro now
    unfold dtEnd
    rw [hmx]
    rfl
  unfold renderLines at h1 h2
  rw [ht] at h1 h2
  simp only [Bind.bind, Except.bind] at h1 h2
  injection h1 with h1
  injection h2 with h2
  subst h1
  subst h2
  rw [hds now1, hds now2, hde now1, hde now2]
  rfl

/-- The transaction list of the C2 witness frame. -/
def c2ts : List Trn :=
  [⟨0, 20240105, ⟨⟨1, 0⟩, false⟩, "", "", "20240105-1.00-0",
    [Cell.str "2024-01-05", Cell.str "1"]⟩]

/-- The rendered lines of the C2 witness frame at the first timestamp. -/
def c2l1 : List String :=
  ((renderLines c2wdf c2meta "d" "a" none none false "" c2now1).toOption).getD []

/-- The rendered lines of the C2 witness frame at the second timestamp. -/
def c2l2 : List String :=
  ((renderLines c2wdf c2meta "d" "a" none none false "" c2now2).toOption).getD []

/-- C2, witness: the amended statement applied to a concrete one-row frame
at two distinct timestamps. -/
theorem c2_witness :
    (transactions c2wdf "d" "a" none none false "" = .ok c2ts ∧ c2ts ≠ [] ∧
        renderLines c2wdf c2meta "d" "a" none none false "" c2now1 = .ok c2l1 ∧
        renderLines c2wdf c2meta "d" "a" none none false "" c2now2 = .ok c2l2) ∧
      c2l1.eraseIdx 17 = c2l2.eraseIdx 17 :=
  ⟨⟨by decide, by decide, by decide, by decide⟩,
    c2_amended c2wdf c2meta "d" "a" none none false "" c2now1 c2now2 c2ts c2l1 c2l2
      (by decide) (by decide) (by decide) (by decide)⟩

/-! Claim C6. -/

/-- C6: with at least one surviving transaction, DTSTART is the minimum and
DTEND the maximum of the surviving rows' normalized dates (hence DTSTART is
at most DTEND); with no surviving transaction both equal the processing
timestamp's date. -/
theorem c6_date_range (df : DataFrame) (date_col amount_col : String)
    (name_col memo_col : Option String) (invert : Bool) (date_format : String)
    (dcol : List Cell) (ga : List (Option FV)) (intdt : Bool)
    (hd : getCol df date_col = some dcol)
    (ha : amountsOf df amount_col (dcol.map (parse_date date_format)) invert =
      some (ga, intdt)) (now : Now) (ts : List Trn)
    (ht : transactions df date_col amount_col name_col memo_col invert date_format = .ok ts) :
    ((ts ≠ []) →
        dtStart ts now ∈ (survAux 0 df.table (dcol.map (parse_date date_format))
            ga).map (·.date) ∧
        (∀ d ∈ (survAux 0 df.table (dcol.map (parse_date date_format))
            ga).map (·.date), dtStart ts now ≤ d) ∧
        dtEnd ts now ∈ (survAux 0 df.table (dcol.map (parse_date date_format))
            ga).map (·.date) ∧
        (∀ d ∈ (survAux 0 df.table (dcol.map (parse_date date_format))
            ga).map (·.date), d ≤ dtEnd ts now) ∧
        dtStart ts now ≤ dtEnd ts now) ∧
      ((ts = []) → dtStart ts now = now.d ∧ dtEnd ts now = now.d) := by
  obtain ⟨dcol2, ga2, intdt2, hd2, ha2, hts⟩ := transactions_ok_eq ht
  rw [hd] at hd2
  injection hd2 with hd2
  subst hd2
  rw [ha] at ha2
  injection ha2 with ha2
  have hga2 : ga = ga2 := congrArg Prod.fst ha2
  have hit2 : intdt = intdt2 := congrArg Prod.snd ha2
  subst hga2
  subst hit2
  constructor
  · intro hne
    set surv := survAux 0 df.table (dcol.map (parse_date date_format)) ga with hsurv
    have hdates : ts.map (·.date) = (sortValues surv).map (·.date) := by
      rw [hts, List.map_map]
      rfl
    have hperm : (sortValues surv).map (·.date) ~ surv.map (·.date) :=
      (sortValues_perm surv).map _
    have hmineq : (ts.map (·.date)).min? = (surv.map (·.date)).min? := by
      rw [hdates]
      exact min?_perm hperm
    have hmaxeq : (ts.map (·.date)).max? = (surv.map (·.date)).max? := by
      rw [hdates]
      exact max?_perm hperm
    have hmap : ts.map (·.date) ≠ [] := by
      intro hc
      exact hne (List.map_eq_nil_iff.1 hc)
    obtain ⟨m, hm⟩ := Option.isSome_iff_exists.1 (min?_isSome_of_ne_nil hmap)
    obtain ⟨mx, hmx⟩ := Option.isSome_iff_exists.1 (max?_isSome_of_ne_nil hmap)
    have hstart : dtStart ts now = m := by
      unfold dtStart
      rw [hm]
      rfl
    have hend : dtEnd ts now = mx := by
      unfold dtEnd
      rw [hmx]
      rfl
    have hminspec := natMin_spec (hmineq.symm.trans hm)
    have hmaxspec := natMax_spec (hmaxeq.symm.trans hmx)
    rw [hstart, hend]
    exact ⟨hminspec.1, hminspec.2, hmaxspec.1, hmaxspec.2,
      hmaxspec.2 m hminspec.1⟩
  · intro hempty
    subst hempty
    constructor <;> rfl

/-- A frame with no surviving rows (unparseable date) for the C6 witness. -/
def c6edf : DataFrame := ⟨["d", "a"], [[Cell.str "x", Cell.str "1"]]⟩

/-- C6, witness: on a concrete one-row frame the date range lies inside the
survivor dates and is ordered; on a concrete frame with no survivors both
ends equal the processing date. -/
theorem c6_witness :
    (dtStart c2ts c2now1 ∈ (survAux 0 c2wdf.table
          ([Cell.str "2024-01-05"].map (parse_date ""))
          (normalize_amount [Cell.str "1"] false)).map (·.date) ∧
        dtStart c2ts c2now1 ≤ dtEnd c2ts c2now1) ∧
      (dtStart ([] : List Trn) c2now1 = c2now1.d ∧ dtEnd ([] : List Trn) c2now1 = c2now1.d) := by
  constructor
  · have h := (c6_date_range c2wdf "d" "a" none none false "" [Cell.str "2024-01-05"]
      (normalize_amount [Cell.str "1"] false) true (by decide) (by decide) c2now1 c2ts
      (by decide)).1 (by decide)
    exact ⟨h.1, h.2.2.2.2⟩
  · exact (c6_date_range c6edf "d" "a" none none false "" [Cell.str "x"]
      (normalize_amount [Cell.str "1"] false) true (by decide) (by decide) c2now1 []
      (by decide)).2 rfl

/-! Claim C7. -/

theorem digitChar_isDigit : ∀ k, k < 10 → (Nat.digitChar k).isDigit = true := by decide

/-- Every formatted amount has exactly two fractional digits. -/
theorem fmtAmt_twoFrac (v : FV) : hasTwoFracDigits (fmtAmt v) := by
  unfold fmtAmt hasTwoFracDigits pad2
  refine ⟨((if v.q.num < 0 || v.negZero then "-" else "") ++
    toString (v.q.cents.natAbs / 100)).data,
    Nat.digitChar (v.q.cents.natAbs % 100 / 10 % 10),
    Nat.digitChar (v.q.cents.natAbs % 100 % 10), ?_, ?_, ?_⟩
  · rw [string_data_append, string_data_append, List.append_assoc]
    rfl
  · exact digitChar_isDigit _ (Nat.mod_lt _ (by omega))
  · exact digitChar_isDigit _ (Nat.mod_lt _ (by omega))

theorem normalize_length (acol : List Cell) (invert : Bool) :
    (normalize_amount acol invert).length = acol.length := by
  unfold normalize_amount to_numeric
  by_cases h : intDtype acol <;> by_cases hi : invert <;> simp [h, hi]

theorem getD_map_of_lt {l : List α} {k : Nat} (g : α → β) (hk : k < l.length) (d : α) (e : β) :
    (l.map g).getD k e = g (l.getD k d) := by
  have hk2 : k < (l.map g).length := by simpa using hk
  rw [getD_eq_getElem_of_lt hk2, getD_eq_getElem_of_lt hk, List.getElem_map]

theorem intDtype_false_of {acol : List Cell} {k : Nat} (hk : k < acol.length) {nl : NumLit}
    (hparse : parseCellNum (acol.getD k Cell.missing) = some nl)
    (hnl : nl.intLike = false) : intDtype acol = false := by
  unfold intDtype
  rw [Bool.and_eq_false_iff]
  right
  rw [List.all_eq_false]
  refine ⟨some nl, ?_, by simp [hnl]⟩
  have : (acol.map parseCellNum).getD k none = some nl := by
    rw [getD_map_of_lt parseCellNum hk Cell.missing none, hparse]
  rw [← this]
  have hk2 : k < (acol.map parseCellNum).length := by simpa using hk
  rw [getD_eq_getElem_of_lt hk2]
  exact List.getElem_mem hk2

/-- The normalized value of a parsed amount cell, without inversion: the
parsed value, with the IEEE negative-zero sign kept exactly under float
dtype. -/
theorem normalize_getD_noinvert {acol : List Cell} {k : Nat} (hk : k < acol.length) :
    (normalize_amount acol false).getD k none =
      (parseCellNum (acol.getD k Cell.missing)).map
        (fun nl => if intDtype acol then (⟨nl.q, false⟩ : FV)
          else ⟨nl.q, nl.negSign && nl.q.isZero⟩) := by
  unfold normalize_amount
  simp only [Bool.false_eq_true, if_false]
  unfold to_numeric
  by_cases hdt : intDtype acol
  · simp only [hdt, if_true, ite_true]
    have hk2 : k < (acol.map parseCellNum).length := by simpa using hk
    rw [getD_map_of_lt _ hk2 none none, getD_map_of_lt parseCellNum hk Cell.missing none]
  · simp only [hdt, if_false, Bool.false_eq_true, ite_false]
    have hk2 : k < (acol.map parseCellNum).length := by simpa using hk
    rw [getD_map_of_lt _ hk2 none none, getD_map_of_lt parseCellNum hk Cell.missing none]

theorem getCol_cellD {df : DataFrame} {c : String} {acol : List Cell}
    (h : getCol df c = some acol) {k : Nat} (hk : k < df.table.length) :
    acol.getD k Cell.missing = cellD df.cols (df.table.getD k []) c := by
  unfold getCol at h
  cases hf : df.cols.findIdx? (fun x => x = c) with
  | none => rw [hf] at h; cases h
  | some j =>
      rw [hf] at h
      simp only [Option.map_some'] at h
      injection h with h
      subst h
      rw [getD_map_of_lt _ hk [] Cell.missing]
      unfold cellD cellOf
      rw [hf]
      rfl

/-- Link between an output transaction and its amount column position, under
a plain (non-synthesized) amount column name. -/
theorem mem_transactions_amount {df : DataFrame} {date_col amount_col : String}
    {name_col memo_col : Option String} {invert : Bool} {date_format : String}
    {ts : List Trn} {dcol acol : List Cell} {t : Trn}
    (hne : amount_col ≠ "__date")
    (hd : getCol df date_col = some dcol) (ha : getCol df amount_col = some acol)
    (ht : transactions df date_col amount_col name_col memo_col invert date_format = .ok ts)
    (htm : t ∈ ts) :
    ∃ k, k < acol.length ∧
      cellD df.cols t.cells amount_col = acol.getD k Cell.missing ∧
      (normalize_amount acol invert).getD k none = some t.amount := by
  obtain ⟨dcol2, ga2, intdt2, hd2, ha2, hts⟩ := transactions_ok_eq ht
  rw [hd] at hd2
  injection hd2 with hd2
  subst hd2
  rw [amountsOf_plain hne ha] at ha2
  injection ha2 with ha2
  have hga2 : normalize_amount acol invert = ga2 := congrArg Prod.fst ha2
  subst hga2
  subst hts
  obtain ⟨s, hsmem, rfl⟩ := List.mem_map.1 htm
  have hsurv : s ∈ survAux 0 df.table (dcol.map (parse_date date_format))
      (normalize_amount acol invert) := (sortValues_perm _).subset hsmem
  obtain ⟨k, hk, hcells, _, hamt, _⟩ := survAux_mem _ _ _ _ s hsurv
  have hklen : k < acol.length := by
    rw [getCol_length ha]
    exact hk
  refine ⟨k, hklen, ?_, ?_⟩
  · have hc : (mkTrn df.cols intdt2 name_col memo_col s).cells = s.cells := rfl
    rw [hc, hcells]
    exact (getCol_cellD ha hk).symm
  · have hc : (mkTrn df.cols intdt2 name_col memo_col s).amount = s.amount := rfl
    rw [hc]
    exact hamt

/-- C7, amended: every TRNAMT renders with exactly two fractional digits;
with inversion off and the mapped amount column not the synthesized name
`__date` (which line 58 overwrites before the amount lookup), a cell `12.5`
renders as `12.50`; a cell `-0` with inversion off renders as `0.00` with
type CREDIT when the amount column has int64 dtype (every cell an
integer-like literal), and as `-0.00`, still with type CREDIT, when the
column has float dtype (for example when another cell of the column is
unparseable). -/
theorem c7_amended (df : DataFrame) (date_col amount_col : String)
    (name_col memo_col : Option String) (invert : Bool) (date_format : String)
    (dcol acol : List Cell) (hne : amount_col ≠ "__date")
    (hd : getCol df date_col = some dcol)
    (ha : getCol df amount_col = some acol) (ts : List Trn)
    (ht : transactions df date_col amount_col name_col memo_col invert date_format = .ok ts)
    (t : Trn) (htm : t ∈ ts) :
    hasTwoFracDigits (fmtAmt t.amount) ∧
      (invert = false → cellD df.cols t.cells amount_col = Cell.str "12.5" →
        fmtAmt t.amount = "12.50") ∧
      (invert = false → intDtype acol = true →
        cellD df.cols t.cells amount_col = Cell.str "-0" →
        fmtAmt t.amount = "0.00" ∧ trnType t = "CREDIT") ∧
      (invert = false → intDtype acol = false →
        cellD df.cols t.cells amount_col = Cell.str "-0" →
        fmtAmt t.amount = "-0.00" ∧ trnType t = "CREDIT") := by
  obtain ⟨k, hk, hcell, hval⟩ := mem_transactions_amount hne hd ha ht htm
  refine ⟨fmtAmt_twoFrac t.amount, ?_, ?_, ?_⟩
  · intro hinv hc
    subst hinv
    rw [hcell] at hc
    rw [normalize_getD_noinvert hk, hc] at hval
    have hdt : intDtype acol = false :=
      @intDtype_false_of acol k hk ⟨⟨125, 1⟩, false, false⟩ (by rw [hc]; decide) rfl
    rw [hdt] at hval
    simp only [parseCellNum, Bool.false_eq_true, if_false, ite_false] at hval
    have : t.amount = ⟨⟨125, 1⟩, false⟩ := by
      have h12 : parseNumLit "12.5" = some ⟨⟨125, 1⟩, false, false⟩ := by decide
      rw [h12] at hval
      simp only [Option.map_some'] at hval
      injection hval with hval
      exact hval.symm
    rw [this]
    decide
  · intro hinv hdt hc
    subst hinv
    rw [hcell] at hc
    rw [normalize_getD_noinvert hk, hc, hdt] at hval
    simp only [parseCellNum, if_true, ite_true] at hval
    have : t.amount = ⟨⟨0, 0⟩, false⟩ := by
      have h0 : parseNumLit "-0" = some ⟨⟨0, 0⟩, true, true⟩ := by decide
      rw [h0] at hval
      simp only [Option.map_some'] at hval
      injection hval with hval
      exact hval.symm
    constructor
    · rw [this]; decide
    · unfold trnType; rw [this]; decide
  · intro hinv hdt hc
    subst hinv
    rw [hcell] at hc
    rw [normalize_getD_noinvert hk, hc, hdt] at hval
    simp only [parseCellNum, Bool.false_eq_true, if_false, ite_false] at hval
    have : t.amount = ⟨⟨0, 0⟩, true⟩ := by
      have h0 : parseNumLit "-0" = some ⟨⟨0, 0⟩, true, true⟩ := by decide
      rw [h0] at hval
      simp only [Option.map_some'] at hval
      injection hval with hval
      exact hval.symm
    constructor
    · rw [this]; decide
    · unfold trnType; rw [this]; decide

/-- Frame whose amount column is float dtype because one cell is
unparseable, with a `-0` amount on a surviving row. -/
def c7df : DataFrame :=
  ⟨["d", "a"], [[Cell.str "2024-01-05", Cell.str "-0"], [Cell.str "2024-01-06", Cell.str "x"]]⟩

/-- C7, counterexample: with inversion off, the surviving `-0` row renders
`TRNAMT` as `-0.00`, not `0.00` as the claim states — pandas keeps the IEEE
negative zero because the column is float dtype (its other cell coerces to
NaN). -/
theorem c7_counterexample :
    (transactions c7df "d" "a" none none false "").map
        (fun ts => ts.map (fun t => fmtAmt t.amount)) = .ok ["-0.00"] ∧
      ("-0.00" : String) ≠ "0.00" := by decide

/-- One-row frame whose amount cell is `12.5`. -/
def c7wdf : DataFrame := ⟨["d", "a"], [[Cell.str "2024-01-05", Cell.str "12.5"]]⟩

/-- The transaction c7wdf converts to. -/
def c7wtrn : Trn :=
  ⟨0, 20240105, ⟨⟨125, 1⟩, false⟩, "", "", "20240105-12.50-0",
    [Cell.str "2024-01-05", Cell.str "12.5"]⟩

/-- One-row frame whose amount cell is `-0` (int64 dtype). -/
def c7idf : DataFrame := ⟨["d", "a"], [[Cell.str "2024-01-05", Cell.str "-0"]]⟩

/-- The transaction c7idf converts to. -/
def c7itrn : Trn :=
  ⟨0, 20240105, ⟨⟨0, 0⟩, false⟩, "", "", "20240105-0.00-0",
    [Cell.str "2024-01-05", Cell.str "-0"]⟩

/-- C7, witness: input `12.5` renders `12.50` (two fractional digits), and
input `-0` in an all-integer column renders `0.00` with type CREDIT. -/
theorem c7_witness :
    (transactions c7wdf "d" "a" none none false "" = .ok [c7wtrn] ∧
        fmtAmt c7wtrn.amount = "12.50" ∧ hasTwoFracDigits (fmtAmt c7wtrn.amount)) ∧
      (transactions c7idf "d" "a" none none false "" = .ok [c7itrn] ∧
        fmtAmt c7itrn.amount = "0.00" ∧ trnType c7itrn = "CREDIT") := by
  have h1 := c7_amended c7wdf "d" "a" none none false "" [Cell.str "2024-01-05"]
    [Cell.str "12.5"] (by decide) (by decide) (by decide) [c7wtrn] (by decide) c7wtrn (by decide)
  have h2 := c7_amended c7idf "d" "a" none none false "" [Cell.str "2024-01-05"]
    [Cell.str "-0"] (by decide) (by decide) (by decide) [c7itrn] (by decide) c7itrn (by decide)
  exact ⟨⟨by decide, h1.2.1 rfl (by decide), h1.1⟩,
    ⟨by decide, (h2.2.2.1 rfl (by decide) (by decide)).1, (h2.2.2.1 rfl (by decide) (by decide)).2⟩⟩

/-! Claim C4. -/

/-- A computed line whose fixed prefix differs from the corresponding prefix
of the block-opening line is not the block-opening line. -/
theorem append_ne_stmtOpen (p x : String) (hp : p.data ≠ stmtOpen.data.take p.data.length) :
    p ++ x ≠ stmtOpen := by
  intro hc
  apply hp
  have hdata : p.data ++ x.data = stmtOpen.data := by rw [← string_data_append, hc]
  calc p.data = (p.data ++ x.data).take p.data.length := (List.take_left' rfl).symm
    _ = stmtOpen.data.take p.data.length := by rw [hdata]

theorem headerLines_count (meta : OfxMeta) (now : Now) (sd ed : Nat) :
    (headerLines meta now sd ed).count stmtOpen = 0 := by
  have h1 : ("      <DTSERVER>" ++ fmt14 now) ≠ stmtOpen := append_ne_stmtOpen _ _ (by decide)
  have h2 : ("        <ORG>" ++ meta.org) ≠ stmtOpen := append_ne_stmtOpen _ _ (by decide)
  have h3 : ("        <FID>" ++ meta.fid) ≠ stmtOpen := append_ne_stmtOpen _ _ (by decide)
  have h4 : ("        <CURDEF>" ++ meta.currency) ≠ stmtOpen := append_ne_stmtOpen _ _ (by decide)
  have h5 : ("          <BANKID>" ++ meta.bank_id) ≠ stmtOpen :=
    append_ne_stmtOpen _ _ (by decide)
  have h6 : ("          <ACCTID>" ++ meta.account_id) ≠ stmtOpen :=
    append_ne_stmtOpen _ _ (by decide)
  have h7 : ("          <ACCTTYPE>" ++ meta.account_type) ≠ stmtOpen :=
    append_ne_stmtOpen _ _ (by decide)
  have h8 : ("          <DTSTART>" ++ fmt8 sd) ≠ stmtOpen := append_ne_stmtOpen _ _ (by decide)
  have h9 : ("          <DTEND>" ++ fmt8 ed) ≠ stmtOpen := append_ne_stmtOpen _ _ (by decide)
  rw [List.count_eq_zero]
  intro hmem
  unfold headerLines at hmem
  simp only [List.mem_cons, List.not_mem_nil, or_false] at hmem
  rcases hmem with h | h | h | h | h | h | h | h | h | h | h | h | h | h | h | h | h | h | h |
    h | h | h | h | h | h | h | h | h | h | h | h | h | h | h | h | h | h | h | h | h | h | h
  all_goals first
    | exact absurd h.symm (by decide)
    | exact absurd h.symm h1
    | exact absurd h.symm h2
    | exact absurd h.symm h3
    | exact absurd h.symm h4
    | exact absurd h.symm h5
    | exact absurd h.symm h6
    | exact absurd h.symm h7
    | exact absurd h.symm h8
    | exact absurd h.symm h9

theorem footerLines_count (ed : Nat) : (footerLines ed).count stmtOpen = 0 := by
  have h1 : ("          <DTASOF>" ++ fmt8 ed) ≠ stmtOpen := append_ne_stmtOpen _ _ (by decide)
  rw [List.count_eq_zero]
  intro hmem
  unfold footerLines at hmem
  simp only [List.mem_cons, List.not_mem_nil, or_false] at hmem
  rcases hmem with h | h | h | h | h | h | h | h | h
  all_goals first
    | exact absurd h.symm (by decide)
    | exact absurd h.symm h1

theorem trnLines_count (t : Trn) : (trnLines t).count stmtOpen = 1 := by
  have h1 : ("            <TRNTYPE>" ++ trnType t) ≠ stmtOpen := append_ne_stmtOpen _ _ (by decide)
  have h2 : ("            <DTPOSTED>" ++ fmt8 t.date) ≠ stmtOpen :=
    append_ne_stmtOpen _ _ (by decide)
  have h3 : ("            <TRNAMT>" ++ fmtAmt t.amount) ≠ stmtOpen :=
    append_ne_stmtOpen _ _ (by decide)
  have h4 : ("            <FITID>" ++ t.fitid) ≠ stmtOpen := append_ne_stmtOpen _ _ (by decide)
  have h5 : ("            <NAME>" ++ nameRendered t) ≠ stmtOpen :=
    append_ne_stmtOpen _ _ (by decide)
  have h6 : ("            <MEMO>" ++ t.memo) ≠ stmtOpen := append_ne_stmtOpen _ _ (by decide)
  unfold trnLines
  simp only [List.count_cons, List.count_nil, beq_iff_eq]
  rw [if_neg h1, if_neg h2, if_neg h3, if_neg h4, if_neg h5, if_neg h6]
  decide

theorem flatten_trn_count (ts : List Trn) :
    ((ts.map trnLines).flatten).count stmtOpen = ts.length := by
  induction ts with
  | nil => rfl
  | cons t rest ih =>
      rw [List.map_cons, List.flatten_cons, List.count_append, trnLines_count, ih,
        List.length_cons]
      omega

/-- Frame for the C4 counterexample: a source column named `__date`, mapped
as the amount column, whose cell is an unparseable amount. -/
def c4cdf : DataFrame := ⟨["d", "__date"], [[Cell.str "1970-01-01", Cell.str "abc"]]⟩

/-- C4, counterexample: the row's amount cell `abc` fails numeric parsing, so
the claim predicts zero `<STMTTRN>` blocks; but because the mapped amount
column bears the synthesized name `__date`, line 58 overwrites it with the
parsed dates before line 59's lookup, the row survives, and the document
contains one block. -/
theorem c4_counterexample :
    (renderLines c4cdf c2meta "d" "__date" none none false "" c2now1).map
        (fun ls => ls.count stmtOpen) = .ok 1 ∧
      (([Cell.str "1970-01-01"].map (parse_date "")).zip
          (normalize_amount [Cell.str "abc"] false)).countP
          (fun p => p.1.isSome && p.2.isSome) = 0 := by decide

/-- C4, amended: when the mapped columns resolve and the amount column is not
the synthesized name `__date`, rendering succeeds (rows that fail to parse
are dropped silently, never raising), and the document contains exactly one
`<STMTTRN>` opening line per row whose date and amount cells both parsed, and
none for the rows that failed.  (Mapping the amount to a source column named
`__date` makes the block count follow date parsing alone — see the
counterexample.) -/
theorem c4_block_count (df : DataFrame) (meta : OfxMeta) (date_col amount_col : String)
    (name_col memo_col : Option String) (invert : Bool) (date_format : String) (now : Now)
    (dcol acol : List Cell) (hne : amount_col ≠ "__date")
    (hd : getCol df date_col = some dcol)
    (ha : getCol df amount_col = some acol)
    (hnc : colCheck df.cols name_col = none) (hmc : colCheck df.cols memo_col = none) :
    ∃ lines, renderLines df meta date_col amount_col name_col memo_col invert date_format now =
        .ok lines ∧
      lines.count stmtOpen =
        ((dcol.map (parse_date date_format)).zip (normalize_amount acol invert)).countP
          (fun p => p.1.isSome && p.2.isSome) := by
  set surv := survAux 0 df.table (dcol.map (parse_date date_format))
    (normalize_amount acol invert) with hsurv
  have htrans : transactions df date_col amount_col name_col memo_col invert date_format =
      .ok ((sortValues surv).map (mkTrn df.cols (intDtype acol) name_col memo_col)) := by
    unfold transactions
    rw [hd]
    dsimp only
    rw [amountsOf_plain hne ha]
    exact buildTrns_ok_of_cols hmc hnc _
  set ts := (sortValues surv).map (mkTrn df.cols (intDtype acol) name_col memo_col) with hts
  refine ⟨headerLines meta now (dtStart ts now) (dtEnd ts now) ++
    (ts.map trnLines).flatten ++ footerLines (dtEnd ts now), ?_, ?_⟩
  · unfold renderLines
    rw [htrans]
    rfl
  · rw [List.count_append, List.count_append, headerLines_count, footerLines_count,
      flatten_trn_count]
    have hlen1 : ts.length = surv.length := by
      rw [hts, List.length_map]
      unfold sortValues reorder
      rw [List.length_map, npArgsort_length, List.length_map]
    rw [hlen1, hsurv]
    rw [survAux_length 0 df.table _ _ ?_ ?_]
    · omega
    · rw [List.length_map, getCol_length hd]
    · rw [List.length_map, normalize_length, getCol_length hd, getCol_length ha]

/-- A frame with one good row, one bad-amount row and one bad-date row for
the C4 witness. -/
def c4df : DataFrame :=
  ⟨["d", "a"], [[Cell.str "2024-01-05", Cell.str "1"], [Cell.str "2024-01-06", Cell.str "x"],
    [Cell.str "nope", Cell.str "2"]]⟩

/-- C4, witness: the three-row frame with one surviving row renders exactly
one block-opening line. -/
theorem c4_witness :
    ∃ lines, renderLines c4df c2meta "d" "a" none none false "" c2now1 = .ok lines ∧
      lines.count stmtOpen =
        (([Cell.str "2024-01-05", Cell.str "2024-01-06", Cell.str "nope"].map (parse_date "")).zip
          (normalize_amount [Cell.str "1", Cell.str "x", Cell.str "2"] false)).countP
          (fun p => p.1.isSome && p.2.isSome) :=
  c4_block_count c4df c2meta "d" "a" none none false "" c2now1
    [Cell.str "2024-01-05", Cell.str "2024-01-06", Cell.str "nope"]
    [Cell.str "1", Cell.str "x", Cell.str "2"] (by decide) (by decide) (by decide) rfl rfl

/-! Claim C1. -/

/-- The claimed ordering of the rendered transactions: non-decreasing by
normalized date, with the original relative row order (the source index)
preserved among equal dates. -/
def stableRel (a b : Trn) : Prop :=
  a.date ≤ b.date ∧ (a.date = b.date → a.idx < b.idx)

instance : DecidableRel stableRel := fun a b => by
  unfold stableRel
  infer_instance

/-- C1, amended: the transaction blocks appear sorted non-decreasing by
normalized date with original relative order preserved among equal dates for
every input whose surviving row set has at most 16 rows — there the sort is
numpy's insertion sort, which is stable; with 17 or more surviving rows the
default quicksort partitioning can reorder equal dates (see the
counterexample). -/
theorem c1_amended (df : DataFrame) (date_col amount_col : String)
    (name_col memo_col : Option String) (invert : Bool) (date_format : String)
    (ts : List Trn)
    (ht : transactions df date_col amount_col name_col memo_col invert date_format = .ok ts)
    (hlen : ts.length ≤ 16) : ts.Pairwise stableRel := by
  obtain ⟨dcol, ga, intdt, hd, ha, hts⟩ := transactions_ok_eq ht
  subst hts
  set surv := survAux 0 df.table (dcol.map (parse_date date_format)) ga with hsurv
  set keys := surv.map (·.date) with hkeys
  have hklen : keys.length = surv.length := by rw [hkeys, List.length_map]
  have hslen : surv.length ≤ 16 := by
    rw [List.length_map] at hlen
    unfold sortValues reorder at hlen
    rw [List.length_map, npArgsort_length, ← hkeys, hklen] at hlen
    exact hlen
  have hp : (npArgsort keys).Pairwise (keyRel keys) :=
    npArgsort_pairwise_small (by rw [hklen]; exact hslen)
  have hidxp : surv.Pairwise (fun a b => a.idx < b.idx) := by
    rw [hsurv]
    exact survAux_idx_pairwise 0 _ _ _
  show ((sortValues surv).map (mkTrn df.cols intdt name_col memo_col)).Pairwise stableRel
  unfold sortValues reorder
  rw [← hkeys, List.map_map, List.pairwise_map]
  refine hp.imp_of_mem ?_
  intro i j hi hj hrel
  have hilt : i < surv.length := by
    have := npArgsort_mem hi
    rwa [hklen] at this
  have hjlt : j < surv.length := by
    have := npArgsort_mem hj
    rwa [hklen] at this
  have hdi : lget keys i = (surv.getD i dummySurv).date := by
    unfold lget
    rw [hkeys]
    exact getD_map_of_lt _ hilt dummySurv 0
  have hdj : lget keys j = (surv.getD j dummySurv).date := by
    unfold lget
    rw [hkeys]
    exact getD_map_of_lt _ hjlt dummySurv 0
  have hdatei : (mkTrn df.cols intdt name_col memo_col (surv.getD i dummySurv)).date =
      (surv.getD i dummySurv).date := rfl
  have hdatej : (mkTrn df.cols intdt name_col memo_col (surv.getD j dummySurv)).date =
      (surv.getD j dummySurv).date := rfl
  have hidxi : (mkTrn df.cols intdt name_col memo_col (surv.getD i dummySurv)).idx =
      (surv.getD i dummySurv).idx := rfl
  have hidxj : (mkTrn df.cols intdt name_col memo_col (surv.getD j dummySurv)).idx =
      (surv.getD j dummySurv).idx := rfl
  unfold stableRel
  simp only [Function.comp_apply]
  rw [hdatei, hdatej, hidxi, hidxj, ← hdi, ← hdj]
  rcases hrel with hlt | ⟨heq, hij⟩
  · exact ⟨Nat.le_of_lt hlt, fun heq2 => absurd (heq2 ▸ hlt) (Nat.lt_irrefl _)⟩
  · refine ⟨Nat.le_of_eq heq, fun _ => ?_⟩
    have hg := List.pairwise_iff_getElem.1 hidxp i j hilt hjlt hij
    rw [getD_eq_getElem_of_lt hilt, getD_eq_getElem_of_lt hjlt]
    exact hg

/-- Seventeen rows sharing one date. -/
def c1df : DataFrame :=
  ⟨["d", "a"],
    [[Cell.str "2024-01-01", Cell.str "1"], [Cell.str "2024-01-01", Cell.str "2"],
     [Cell.str "2024-01-01", Cell.str "3"], [Cell.str "2024-01-01", Cell.str "4"],
     [Cell.str "2024-01-01", Cell.str "5"], [Cell.str "2024-01-01", Cell.str "6"],
     [Cell.str "2024-01-01", Cell.str "7"], [Cell.str "2024-01-01", Cell.str "8"],
     [Cell.str "2024-01-01", Cell.str "9"], [Cell.str "2024-01-01", Cell.str "10"],
     [Cell.str "2024-01-01", Cell.str "11"], [Cell.str "2024-01-01", Cell.str "12"],
     [Cell.str "2024-01-01", Cell.str "13"], [Cell.str "2024-01-01", Cell.str "14"],
     [Cell.str "2024-01-01", Cell.str "15"], [Cell.str "2024-01-01", Cell.str "16"],
     [Cell.str "2024-01-01", Cell.str "17"]]⟩

/-- C1, counterexample: on seventeen rows with equal normalized dates the
conversion succeeds but the output violates the claimed stable order — the
default `sort_values` quicksort emits the equal-date rows as source indices
0, 14, 13, …, so the original relative order is not preserved. -/
theorem c1_counterexample :
    (transactions c1df "d" "a" none none false "").map
      (fun ts => decide (ts.Pairwise stableRel)) = .ok false := by decide

/-- Three rows with a tie on the earlier date, at most 16 surviving rows. -/
def c1wdf : DataFrame :=
  ⟨["d", "a"], [[Cell.str "2024-01-05", Cell.str "1"], [Cell.str "2024-01-03", Cell.str "2"],
    [Cell.str "2024-01-03", Cell.str "3"]]⟩

/-- The transactions c1wdf converts to: the tied 2024-01-03 rows stay in
source order, followed by the 2024-01-05 row. -/
def c1wts : List Trn :=
  [⟨1, 20240103, ⟨⟨2, 0⟩, false⟩, "", "", "20240103-2.00-1",
      [Cell.str "2024-01-03", Cell.str "2"]⟩,
   ⟨2, 20240103, ⟨⟨3, 0⟩, false⟩, "", "", "20240103-3.00-2",
      [Cell.str "2024-01-03", Cell.str "3"]⟩,
   ⟨0, 20240105, ⟨⟨1, 0⟩, false⟩, "", "", "20240105-1.00-0",
      [Cell.str "2024-01-05", Cell.str "1"]⟩]

/-- C1, witness: the amended statement applied to a concrete three-row frame
with an equal-date tie. -/
theorem c1_witness :
    (transactions c1wdf "d" "a" none none false "" = .ok c1wts ∧ c1wts.length ≤ 16) ∧
      c1wts.Pairwise stableRel :=
  ⟨⟨by decide, by decide⟩,
    c1_amended c1wdf "d" "a" none none false "" c1wts (by decide) (by decide)⟩

/-! Claim C5. -/

/-- The per-cell normalized amount when no negative-zero literal is present:
independent of the column's inferred dtype. -/
theorem normalize_uniform {acol : List Cell}
    (hz : ∀ c ∈ acol, ∀ nl, parseCellNum c = some nl → (nl.negSign && nl.q.isZero) = false) :
    normalize_amount acol false =
      acol.map (fun c => (parseCellNum c).map (fun nl => (⟨nl.q, false⟩ : FV))) := by
  unfold normalize_amount
  simp only [Bool.false_eq_true, if_false]
  unfold to_numeric
  by_cases hdt : intDtype acol
  · simp only [hdt, if_true, ite_true]
    rw [List.map_map]
    rfl
  · simp only [hdt, if_false, Bool.false_eq_true, ite_false]
    rw [List.map_map]
    apply List.map_congr_left
    intro c hc
    simp only [Function.comp_apply]
    cases hp : parseCellNum c with
    | none => rfl
    | some nl =>
        simp only [Option.map_some']
        rw [hz c hc nl hp]

/-- Column extraction under a resolved column index. -/
theorem getCol_eq_map {cols : List String} {table : List (List Cell)} {c : String} {j : Nat}
    (h : cols.findIdx? (fun x => x = c) = some j) :
    getCol ⟨cols, table⟩ c = some (table.map (fun r => r.getD j Cell.missing)) := by
  unfold getCol
  rw [h]
  rfl

/-- Upper bound on survivor indices. -/
theorem survAux_idx_lt : ∀ (i : Nat) (rows : List (List Cell)) (ds : List (Option Nat))
    (as : List (Option FV)) (s : Surv), s ∈ survAux i rows ds as → s.idx < i + rows.length := by
  intro i rows ds as s hs
  obtain ⟨k, hk, _, _, _, hidx⟩ := survAux_mem i rows ds as s hs
  omega

/-- A row whose amount failed to parse is dropped, whatever its date did. -/
theorem survAux_skip (i : Nat) (r : List Cell) (rows : List (List Cell)) (d : Option Nat)
    (ds : List (Option Nat)) (as : List (Option FV)) :
    survAux i (r :: rows) (d :: ds) (none :: as) = survAux (i + 1) rows ds as := by
  cases d <;> rfl

/-- Reindexing of a transaction by the removal of one earlier source row:
identity before the removed position, source index one higher (with the
correspondingly regenerated identifier) at or after it. -/
def reindexOne (p : Nat) (t : Trn) : Trn :=
  if t.idx < p then t
  else ⟨t.idx + 1, t.date, t.amount, t.name, t.memo,
    generate_fitid (t.idx + 1) t.date t.amount t.memo, t.cells⟩

theorem mkTrn_shift (cols : List String) (intdt : Bool) (nc mc : Option String) (p : Nat)
    (s : Surv) :
    mkTrn cols intdt nc mc (if s.idx < p then s else ⟨s.idx + 1, s.date, s.amount, s.cells⟩) =
      reindexOne p (mkTrn cols intdt nc mc s) := by
  by_cases h : s.idx < p
  · rw [if_pos h]
    unfold reindexOne
    rw [if_pos (show (mkTrn cols intdt nc mc s).idx < p from h)]
  · rw [if_neg h]
    unfold reindexOne
    rw [if_neg (show ¬(mkTrn cols intdt nc mc s).idx < p from h)]
    rfl

/-- The loop's string of a plainly named column: the row's original cell. -/
theorem rowStr_plain {c : String} (h1 : c ≠ "__date") (h2 : c ≠ "__amount")
    (cols : List String) (i : Bool) (s : Surv) :
    rowStr cols i s c = pyStr (cellD cols s.cells c) := by
  unfold rowStr
  rw [if_neg h1, if_neg h2]

/-- The dtype of the synthesized amount column is irrelevant to the loop body
when neither optional column bears a synthesized column's name. -/
theorem mkTrn_intdt {cols : List String} {nc mc : Option String}
    (hns : ∀ c, nc = some c → c ≠ "__date" ∧ c ≠ "__amount")
    (hms : ∀ c, mc = some c → c ≠ "__date" ∧ c ≠ "__amount")
    (i1 i2 : Bool) (s : Surv) :
    mkTrn cols i1 nc mc s = mkTrn cols i2 nc mc s := by
  unfold mkTrn
  cases mc with
  | none =>
      cases nc with
      | none => rfl
      | some c =>
          obtain ⟨h1, h2⟩ := hns c rfl
          simp only [rowStr_plain h1 h2]
  | some c =>
      obtain ⟨h1, h2⟩ := hms c rfl
      cases nc with
      | none => simp only [rowStr_plain h1 h2]
      | some c2 =>
          obtain ⟨h3, h4⟩ := hns c2 rfl
          simp only [rowStr_plain h1 h2, rowStr_plain h3 h4]

/-- C5, amended: with inversion off, no negative-zero amount literal (which
could otherwise change other rows' rendered amounts through the column
dtype), the mapped amount column not bearing the synthesized name `__date`,
and the optional name and memo columns unmapped or mapped to plainly named
source columns, physically removing a row whose amount fails to parse leaves
the surviving transactions' dates, amounts, names, memos and relative order
unchanged; transactions from rows before the removed position keep identical
FITIDs, while rows after it carry a source index one higher when the bad row
is present, and their FITIDs embed that shifted index. -/
theorem c5_amended (cols : List String) (pre post : List (List Cell)) (bad : List Cell)
    (date_col amount_col : String) (name_col memo_col : Option String) (date_format : String)
    (jd ja : Nat)
    (hdj : cols.findIdx? (fun x => x = date_col) = some jd)
    (haj : cols.findIdx? (fun x => x = amount_col) = some ja)
    (hane : amount_col ≠ "__date")
    (hnc : colCheck cols name_col = none) (hmc : colCheck cols memo_col = none)
    (hns : ∀ c, name_col = some c → c ≠ "__date" ∧ c ≠ "__amount")
    (hms : ∀ c, memo_col = some c → c ≠ "__date" ∧ c ≠ "__amount")
    (hbad : parseCellNum (bad.getD ja Cell.missing) = none)
    (hnz : ∀ r ∈ pre ++ bad :: post, ∀ nl, parseCellNum (r.getD ja Cell.missing) = some nl →
      (nl.negSign && nl.q.isZero) = false) :
    ∃ ts2, transactions ⟨cols, pre ++ post⟩ date_col amount_col name_col memo_col false
        date_format = .ok ts2 ∧
      transactions ⟨cols, pre ++ bad :: post⟩ date_col amount_col name_col memo_col false
        date_format = .ok (ts2.map (reindexOne pre.length)) := by
  set p := pre.length with hp
  set gd := fun r : List Cell => parse_date date_format (r.getD jd Cell.missing) with hgd
  set ga := fun r : List Cell =>
    (parseCellNum (r.getD ja Cell.missing)).map (fun nl => (⟨nl.q, false⟩ : FV)) with hga
  set A := survAux 0 pre (pre.map gd) (pre.map ga) with hA
  set B := survAux 0 post (post.map gd) (post.map ga) with hB
  have hnorm : ∀ table : List (List Cell),
      (∀ r ∈ table, ∀ nl, parseCellNum (r.getD ja Cell.missing) = some nl →
        (nl.negSign && nl.q.isZero) = false) →
      normalize_amount (table.map (fun r => r.getD ja Cell.missing)) false = table.map ga := by
    intro table hz
    rw [normalize_uniform ?_]
    · rw [List.map_map]
      rfl
    · intro c hc nl hnl
      obtain ⟨r, hr, rfl⟩ := List.mem_map.1 hc
      exact hz r hr nl hnl
  have htrans : ∀ table : List (List Cell),
      (∀ r ∈ table, ∀ nl, parseCellNum (r.getD ja Cell.missing) = some nl →
        (nl.negSign && nl.q.isZero) = false) →
      transactions ⟨cols, table⟩ date_col amount_col name_col memo_col false date_format =
        .ok ((sortValues (survAux 0 table (table.map gd) (table.map ga))).map
          (mkTrn cols false name_col memo_col)) := by
    intro table hz
    unfold transactions
    rw [getCol_eq_map hdj]
    dsimp only
    rw [amountsOf_plain hane (getCol_eq_map haj)]
    dsimp only
    rw [List.map_map, hnorm table hz]
    have hgd2 : (parse_date date_format ∘ fun r : List Cell => r.getD jd Cell.missing) = gd := rfl
    rw [hgd2]
    rw [buildTrns_ok_of_cols hmc hnc (sortValues (survAux 0 table (table.map gd)
      (table.map ga)))]
    exact congrArg Except.ok
      (List.map_congr_left (fun s _ => mkTrn_intdt hns hms _ false s))
  have hz1 : ∀ r ∈ pre ++ bad :: post, ∀ nl,
      parseCellNum (r.getD ja Cell.missing) = some nl → (nl.negSign && nl.q.isZero) = false :=
    hnz
  have hz2 : ∀ r ∈ pre ++ post, ∀ nl,
      parseCellNum (r.getD ja Cell.missing) = some nl → (nl.negSign && nl.q.isZero) = false := by
    intro r hr
    apply hnz
    rcases List.mem_append.1 hr with h | h
    · exact List.mem_append_left _ h
    · exact List.mem_append_right _ (List.mem_cons_of_mem bad h)
  have hsurv1 : survAux 0 (pre ++ bad :: post) ((pre ++ bad :: post).map gd)
      ((pre ++ bad :: post).map ga) =
      A ++ B.map (fun s => ⟨s.idx + (p + 1), s.date, s.amount, s.cells⟩) := by
    rw [List.map_append, List.map_append]
    rw [survAux_append 0 pre (bad :: post) (pre.map gd) ((bad :: post).map gd)
      (pre.map ga) ((bad :: post).map ga) (by simp) (by simp)]
    rw [List.map_cons, List.map_cons]
    have hbn : ga bad = none := by
      rw [hga]
      simp only
      rw [hbad]
      rfl
    rw [hbn, survAux_skip, Nat.zero_add]
    rw [survAux_shift (pre.length + 1) post (post.map gd) (post.map ga)]
  have hsurv2 : survAux 0 (pre ++ post) ((pre ++ post).map gd) ((pre ++ post).map ga) =
      A ++ B.map (fun s => ⟨s.idx + p, s.date, s.amount, s.cells⟩) := by
    rw [List.map_append, List.map_append]
    rw [survAux_append 0 pre post (pre.map gd) (post.map gd) (pre.map ga) (post.map ga)
      (by simp) (by simp)]
    rw [Nat.zero_add]
    rw [survAux_shift pre.length post (post.map gd) (post.map ga)]
  set phi := fun s : Surv => if s.idx < p then s else
    (⟨s.idx + 1, s.date, s.amount, s.cells⟩ : Surv) with hphi
  have hmapA : A.map phi = A := by
    conv_rhs => rw [← List.map_id A]
    apply List.map_congr_left
    intro s hs
    have hlt : s.idx < p := by
      have := survAux_idx_lt 0 pre (pre.map gd) (pre.map ga) s (hA ▸ hs)
      omega
    rw [hphi]
    simp only
    rw [if_pos hlt]
    rfl
  have hmapB : (B.map (fun s => (⟨s.idx + p, s.date, s.amount, s.cells⟩ : Surv))).map phi =
      B.map (fun s => ⟨s.idx + (p + 1), s.date, s.amount, s.cells⟩) := by
    rw [List.map_map]
    apply List.map_congr_left
    intro s _
    simp only [Function.comp_apply, hphi]
    rw [if_neg (by omega)]
    rfl
  have hkey : survAux 0 (pre ++ bad :: post) ((pre ++ bad :: post).map gd)
      ((pre ++ bad :: post).map ga) =
      (survAux 0 (pre ++ post) ((pre ++ post).map gd) ((pre ++ post).map ga)).map phi := by
    rw [hsurv1, hsurv2, List.map_append, hmapA, hmapB]
  set surv2 := survAux 0 (pre ++ post) ((pre ++ post).map gd) ((pre ++ post).map ga)
    with hsurv2def
  have hdates : (surv2.map phi).map (·.date) = surv2.map (·.date) := by
    rw [List.map_map]
    apply List.map_congr_left
    intro s _
    simp only [Function.comp_apply, hphi]
    by_cases h : s.idx < p
    · rw [if_pos h]
    · rw [if_neg h]
  have hsortmap : sortValues (surv2.map phi) = (sortValues surv2).map phi := by
    unfold sortValues reorder
    rw [hdates, List.map_map]
    apply List.map_congr_left
    intro i hi
    have hlt : i < surv2.length := by
      have h1 := npArgsort_mem hi
      rwa [List.length_map] at h1
    simp only [Function.comp_apply]
    exact getD_map_of_lt phi hlt dummySurv dummySurv
  refine ⟨(sortValues surv2).map (mkTrn cols false name_col memo_col),
    htrans (pre ++ post) hz2, ?_⟩
  rw [htrans (pre ++ bad :: post) hz1]
  rw [hkey, hsortmap]
  rw [List.map_map, List.map_map]
  have hfun : (sortValues surv2).map (mkTrn cols false name_col memo_col ∘ phi) =
      (sortValues surv2).map (reindexOne p ∘ mkTrn cols false name_col memo_col) := by
    apply List.map_congr_left
    intro s _
    simp only [Function.comp_apply, hphi]
    exact mkTrn_shift cols false name_col memo_col p s
  rw [hfun]

/-- Rows before the unparseable row. -/
def c5pre : List (List Cell) := [[Cell.str "2024-01-05", Cell.str "1"]]

/-- The row whose amount is unparseable. -/
def c5bad : List Cell := [Cell.str "2024-01-05", Cell.str "N/A"]

/-- Rows after the unparseable row. -/
def c5post : List (List Cell) := [[Cell.str "2024-01-06", Cell.str "2"]]

/-- C5, counterexample: with the unparseable-amount row present, the second
surviving row renders `FITID` `20240106-2.00-2`; with that row physically
removed from the input it renders `20240106-2.00-1` — the source index
shifts, so the remaining transactions' FITIDs are not identical, contrary to
the claim. -/
theorem c5_counterexample :
    (transactions ⟨["d", "a"], c5pre ++ c5bad :: c5post⟩ "d" "a" none none false "").map
        (fun ts => ts.map (·.fitid)) = .ok ["20240105-1.00-0", "20240106-2.00-2"] ∧
      (transactions ⟨["d", "a"], c5pre ++ c5post⟩ "d" "a" none none false "").map
        (fun ts => ts.map (·.fitid)) = .ok ["20240105-1.00-0", "20240106-2.00-1"] ∧
      (["20240105-1.00-0", "20240106-2.00-2"] : List String) ≠
        ["20240105-1.00-0", "20240106-2.00-1"] := by decide

/-- A decidable sufficient condition for the no-negative-zero hypothesis. -/
theorem hnz_of_check {l : List (List Cell)} {ja : Nat}
    (h : ∀ r ∈ l, ((parseCellNum (r.getD ja Cell.missing)).map
      (fun nl => nl.negSign && nl.q.isZero)).getD false = false) :
    ∀ r ∈ l, ∀ nl, parseCellNum (r.getD ja Cell.missing) = some nl →
      (nl.negSign && nl.q.isZero) = false := by
  intro r hr nl hnl
  have h2 := h r hr
  rw [hnl] at h2
  simpa using h2

/-- C5, witness: the amended statement applied to the concrete three-row
input of the counterexample. -/
theorem c5_witness :
    ∃ ts2, transactions ⟨["d", "a"], c5pre ++ c5post⟩ "d" "a" none none false "" = .ok ts2 ∧
      transactions ⟨["d", "a"], c5pre ++ c5bad :: c5post⟩ "d" "a" none none false "" =
        .ok (ts2.map (reindexOne c5pre.length)) :=
  c5_amended ["d", "a"] c5pre c5post c5bad "d" "a" none none "" 0 1 (by decide) (by decide)
    (by decide) rfl rfl (fun c hc => nomatch hc) (fun c hc => nomatch hc) (by decide)
    (hnz_of_check (by decide))
